import Mathlib

/-!
Shallow embedding of `src/packages/ng2-chess/plugins/ui/dom-svg-board/svg-chess-board/
svg-chess-board.component.ts` (class `SVGChessBoard`), the pointer-driven board
interaction controller of ng2-chess.

The component's mutable fields become a state structure; each method becomes a
state-passing function.  DOM reads (`clientWidth`, `getBoundingClientRect`,
`currentScale`, `currentTranslate`) are supplied through a `Dom` snapshot taken at
the instant of the read, exactly where the source reads them.  Device pixel
coordinates are rationals.  Code external to the repository's `src/` tree (the
`ChessBoardController`, the `SVGChessPiece` component methods, `BaseBlock.pointToIndex`)
is modelled from the spec, each such definition carrying a doc comment that says so.
-/

/-- Piece colors, as imported by the component from the ng2-chess core. -/
inductive PieceColor where
  | WHITE : PieceColor
  | BLACK : PieceColor
deriving DecidableEq, Repr

/-- Piece types, as imported by the component from the ng2-chess core. -/
inductive PieceType where
  | PAWN : PieceType
  | KNIGHT : PieceType
  | BISHOP : PieceType
  | ROOK : PieceType
  | QUEEN : PieceType
  | KING : PieceType
deriving DecidableEq, Repr

/-- A logical board square (`Block` in the source).  `id` models JavaScript reference
identity of the block object (two blocks are the same object iff their ids agree);
`index` is the zero-based position on the N x N grid. -/
structure Block where
  id : Nat
  index : Nat
deriving DecidableEq, Repr

/-- A promise, split by whether it is already settled when returned.  The source's
single synchronous suspension points return `resolved` values built with
`Promise.resolve`. -/
inductive Promise (α : Type) where
  | resolved : α → Promise α
  | pending : Promise α
deriving DecidableEq, Repr

/-- The result object the move authority passes to `dropPiece`'s continuation:
`move.invalid` and `move.isCastlingMove()`. -/
structure MoveResult where
  invalid : Bool
  isCastling : Bool
deriving DecidableEq, Repr

/-- Embeds the source's `move.isCastlingMove()` accessor. -/
def MoveResult.isCastlingMove (m : MoveResult) : Bool :=
  m.isCastling

/-- The external chess engine at the interface boundary the component consumes:
`turn()`, `pieces`, `moves(piece)`, per-piece color and current logical block.
Logical pieces are referred to by id (JavaScript reference identity).
`isCastling`/`castlingSecondary` describe, per proposed move, whether the engine
treats it as castling and which second piece it silently relocates. -/
structure EngineState where
  turnColor : PieceColor
  pieces : List Nat
  pieceColor : Nat → PieceColor
  pieceBlock : Nat → Block
  moves : Nat → List Block
  isCastling : Nat → Block → Bool
  castlingSecondary : Nat → Block → Option (Nat × Block)

/-- The `SVGChessPiece` visual handle as seen by the board component: a back
reference `piece` to its logical piece (by id), the paired `SVGChessBlock`
component (`block` in the source, modelled as a position into the board's
`blocks` query list), the lifted drag state, and the live drag offset. -/
structure SVGChessPiece where
  piece : Nat
  block : Option Nat
  lifted : Bool
  offset : ℚ × ℚ
deriving DecidableEq, Repr

/-- The `SVGChessBlock` visual handle: its logical `block` and the piece handle
currently paired to it (a position into the board's `pieces` query list). -/
structure SVGChessBlock where
  block : Block
  piece : Option Nat
deriving DecidableEq, Repr

/-- The mutable state of the `SVGChessBoard` component.  `dragPiece` holds the
handle currently being dragged (a position into `pieces`); `rxWaste` is the
subscription stack; `blocks`/`pieces` are snapshots of the two query lists. -/
structure SVGChessBoard where
  dragPiece : Option Nat
  isBusy : Bool
  isDisabled : Bool
  banner : Option (String × String)
  highlighted : List Block
  rxWaste : List Nat
  blocks : List SVGChessBlock
  pieces : List SVGChessPiece
deriving DecidableEq, Repr

/-- A snapshot of the DOM values the component reads: the SVG element's rendered
client size, its bounding rectangle, and its current scale and translation. -/
structure Dom where
  clientWidth : ℚ
  clientHeight : ℚ
  rectLeft : ℚ
  rectTop : ℚ
  currentScale : ℚ
  translateX : ℚ
  translateY : ℚ
deriving DecidableEq, Repr

/-- Embeds the `ratioX` getter: the board's authored width (fixed at 600 in the
constructor) over the rendered client width. -/
def SVGChessBoard.ratioX (dom : Dom) : ℚ :=
  600 / dom.clientWidth

/-- Embeds the `ratioY` getter: the board's authored height (fixed at 600 in the
constructor) over the rendered client height. -/
def SVGChessBoard.ratioY (dom : Dom) : ℚ :=
  600 / dom.clientHeight

/-- Modelled from the spec: `BaseBlock.pointToIndex` lives in the ng2-chess core,
not under `src/`.  Per spec section 4.1 it divides each axis of a board-local pixel
coordinate by the fixed square size (600 / 8 = 75) and combines row and column into
a single row-major index; coordinates outside the board still map to an index. -/
def BaseBlock.pointToIndex (x y : ℚ) : ℤ :=
  ⌊y / 75⌋ * 8 + ⌊x / 75⌋

/-- Modelled from the spec: `SVGChessPiece.dragStart` (the piece component is not
under `src/`).  Enters the lifted visual state of the dragged piece. -/
def SVGChessPiece.dragStart (p : SVGChessPiece) : SVGChessPiece :=
  { p with lifted := true }

/-- Modelled from the spec: `SVGChessPiece.dragEnd` (the piece component is not
under `src/`).  Per the source comment at `endDragAndDrop` it lets the piece set
itself inside its paired block: the lifted state and the live offset are cleared. -/
def SVGChessPiece.dragEnd (p : SVGChessPiece) : SVGChessPiece :=
  { p with lifted := false, offset := (0, 0) }

/-- Modelled from the spec: `SVGChessPiece.reset(duration)` (the piece component is
not under `src/`).  Triggers the settle animation toward the paired square's render
position, clearing the live offset; the duration only parametrizes the animation. -/
def SVGChessPiece.reset (p : SVGChessPiece) (_duration : Nat) : SVGChessPiece :=
  { p with offset := (0, 0) }

/-- Modelled from the spec: `SVGChessPiece.setCoordinates(dx, dy)` (the piece
component is not under `src/`).  Accumulates a position delta into the live offset. -/
def SVGChessPiece.setCoordinates (p : SVGChessPiece) (dx dy : ℚ) : SVGChessPiece :=
  { p with offset := (p.offset.1 + dx, p.offset.2 + dy) }

/-- Applies `f` to the piece handle at position `pi` of the query list, when present. -/
def SVGChessBoard.modifyPiece (st : SVGChessBoard) (pi : Nat)
    (f : SVGChessPiece → SVGChessPiece) : SVGChessBoard :=
  match st.pieces[pi]? with
  | some p => { st with pieces := st.pieces.set pi (f p) }
  | none => st

/-- Applies `f` to the block handle at position `bi` of the query list, when present. -/
def SVGChessBoard.modifyBlock (st : SVGChessBoard) (bi : Nat)
    (f : SVGChessBlock → SVGChessBlock) : SVGChessBoard :=
  match st.blocks[bi]? with
  | some b => { st with blocks := st.blocks.set bi (f b) }
  | none => st

/-- Embeds the JavaScript array access `this.blocks.toArray()[i]` where `i` may be
any integer: a negative or out-of-range subscript yields `undefined`. -/
def blockAt (blocks : List SVGChessBlock) (i : ℤ) : Option SVGChessBlock :=
  if 0 ≤ i then blocks[i.toNat]? else none

/-- Embeds `SVGChessBoard.askPromotionType` (source lines 313-315): it resolves
immediately with `PieceType.QUEEN`, never suspending for a user choice. -/
def SVGChessBoard.askPromotionType : Promise PieceType :=
  Promise.resolved PieceType.QUEEN

/-- Embeds `SVGChessBoard.move` (source lines 324-336), the simple UI move
operation.  It finds the piece component for the logical piece; if found it pairs
it with the block component at the piece's current block index (the pairing setter
also writes the back reference on the block) and triggers `reset(150)`; if not
found but the piece is in the engine's logical collection it defers itself with
`setTimeout` — the Boolean records whether such a deferral was scheduled. -/
def SVGChessBoard.move (eng : EngineState) (st : SVGChessBoard) (pieceId : Nat) :
    SVGChessBoard × Bool :=
  match (List.range st.pieces.length).find? (fun pi =>
      match st.pieces[pi]? with
      | some p => p.piece == pieceId
      | none => false) with
  | some pi =>
    let idx := (eng.pieceBlock pieceId).index
    let toBlock : Option Nat := if idx < st.blocks.length then some idx else none
    let st1 := st.modifyPiece pi (fun p => { p with block := toBlock, offset := (0, 0) })
    let st2 := match toBlock with
      | some bi => st1.modifyBlock bi (fun b => { b with piece := some pi })
      | none => st1
    (st2, false)
  | none =>
    if pieceId ∈ eng.pieces then (st, true) else (st, false)

/-- The inner search of `syncPiecesToBlocks`: the first piece component whose
logical piece's current block is (by reference identity) the given block. -/
def SVGChessBoard.pieceMatch (eng : EngineState) (pieces : List SVGChessPiece)
    (b : Block) : Option Nat :=
  (List.range pieces.length).find? (fun pi =>
    match pieces[pi]? with
    | some p => eng.pieceBlock p.piece == b
    | none => false)

/-- One iteration of the `blocks.forEach` loop in `syncPiecesToBlocks` (source
lines 407-421): pair the first matching piece component to this block component
and trigger its settle animation, or clear the block's piece reference. -/
def SVGChessBoard.syncStep (eng : EngineState) (s : SVGChessBoard) (bi : Nat) :
    SVGChessBoard :=
  match s.blocks[bi]? with
  | none => s
  | some b =>
    match SVGChessBoard.pieceMatch eng s.pieces b.block with
    | some pi =>
      let s1 := s.modifyPiece pi (fun p => { p with block := some bi, offset := (0, 0) })
      s1.modifyBlock bi (fun bb => { bb with piece := some pi })
    | none => s.modifyBlock bi (fun bb => { bb with piece := none })

/-- Embeds `SVGChessBoard.syncPiecesToBlocks` (source lines 403-422): the full
view-reconciler sweep over every block component. -/
def SVGChessBoard.syncPiecesToBlocks (eng : EngineState) (st : SVGChessBoard) :
    SVGChessBoard :=
  (List.range st.blocks.length).foldl (SVGChessBoard.syncStep eng) st

/-- Modelled from the spec: the engine-side application of a validated move (the
engine is outside `src/`).  The moved piece's logical block becomes the
destination; on castling the engine also silently relocates the second piece
(the rook) per `castlingSecondary`. -/
def EngineState.applyMove (eng : EngineState) (pieceId : Nat) (dest : Block) :
    EngineState :=
  let eng1 := match eng.castlingSecondary pieceId dest with
    | some rb => { eng with pieceBlock := fun q => if q = rb.1 then rb.2 else eng.pieceBlock q }
    | none => eng
  { eng1 with pieceBlock := fun q => if q = pieceId then dest else eng1.pieceBlock q }

/-- Modelled from the spec: `ChessBoardController.move` (the controller class is
outside `src/`).  Per spec sections 4.4 and 6 it asks the move authority to
execute or reject the proposed move: a destination outside the legal-move set is
rejected with an `invalid` result and no state change; a legal destination updates
the engine's logical state and tells the board's UI move operation the piece's new
square, reporting castling in the result. -/
def ChessBoardController.move (eng : EngineState) (st : SVGChessBoard)
    (pieceId : Nat) (dest : Block) : MoveResult × EngineState × SVGChessBoard :=
  if dest ∈ eng.moves pieceId then
    let eng2 := eng.applyMove pieceId dest
    let st2 := (SVGChessBoard.move eng2 st pieceId).1
    ({ invalid := false, isCastling := eng.isCastling pieceId dest }, eng2, st2)
  else
    ({ invalid := true, isCastling := false }, eng, st)

/-- Embeds `SVGChessBoard.endDragAndDrop` (source lines 393-397): let the dragged
piece settle via `dragEnd`, clear the drag reference, clear the highlighting. -/
def SVGChessBoard.endDragAndDrop (st : SVGChessBoard) : SVGChessBoard :=
  let st1 := match st.dragPiece with
    | some dpi => st.modifyPiece dpi SVGChessPiece.dragEnd
    | none => st
  { st1 with dragPiece := none, highlighted := [] }

/-- The drop event as `dropPiece` reads it: `clientX`/`clientY` when the event is a
mouse event, otherwise `changedTouches[0]`. -/
structure DropEvent where
  client : Option (ℚ × ℚ)
  changedTouch : ℚ × ℚ
deriving DecidableEq, Repr

/-- The square index `dropPiece` computes for a drop event: client coordinates made
relative to the board's bounding rectangle, scaled by the viewport ratios, then
mapped through `BaseBlock.pointToIndex`. -/
def SVGChessBoard.dropIndex (dom : Dom) (ev : DropEvent) : ℤ :=
  let xy := match ev.client with
    | some c => c
    | none => ev.changedTouch
  let x := xy.1 - dom.rectLeft
  let y := xy.2 - dom.rectTop
  BaseBlock.pointToIndex (x * SVGChessBoard.ratioX dom) (y * SVGChessBoard.ratioY dom)

/-- Embeds `SVGChessBoard.dropPiece` (source lines 338-390).  When the computed
index has a block component, the move authority is asked to move the dragged
piece there; an invalid result resets the piece in place, a valid castling result
runs the full `syncPiecesToBlocks` sweep; either way the drag then ends.  When
there is no block component at the index the drag just ends.  The third component
lists the `(piece, destination)` invocations made to the move authority.  The
callers (source lines 302 and 305) guard on `this.dragPiece` being set. -/
def SVGChessBoard.dropPiece (dom : Dom) (eng : EngineState) (st : SVGChessBoard)
    (ev : DropEvent) : EngineState × SVGChessBoard × List (Nat × Block) :=
  match blockAt st.blocks (SVGChessBoard.dropIndex dom ev) with
  | some dropBlock =>
    match st.dragPiece with
    | none => (eng, st, [])
    | some dpi =>
      match st.pieces[dpi]? with
      | none => (eng, st, [])
      | some dragH =>
        let res := ChessBoardController.move eng st dragH.piece dropBlock.block
        let st3 :=
          if res.1.invalid then res.2.2.modifyPiece dpi (fun p => p.reset 150)
          else if res.1.isCastlingMove then SVGChessBoard.syncPiecesToBlocks res.2.1 res.2.2
          else res.2.2
        (res.2.1, SVGChessBoard.endDragAndDrop st3, [(dragH.piece, dropBlock.block)])
  | none => (eng, SVGChessBoard.endDragAndDrop st, [])

/-- A mouse event as the drag streams read it: `pageX`/`pageY`. -/
structure MouseEv where
  pageX : ℚ
  pageY : ℚ
deriving DecidableEq, Repr

/-- A touch event as the drag streams read it: the `touches` list of page points. -/
structure TouchEv where
  touches : List (ℚ × ℚ)
deriving DecidableEq, Repr

/-- The per-gesture state captured by the `mousedown` closure: the two viewport
ratios read once at gesture start, and the previous sample's position. -/
structure DragCtx where
  vprX : ℚ
  vprY : ℚ
  lastX : ℚ
  lastY : ℚ
deriving DecidableEq, Repr

/-- The per-gesture state captured by the `touchstart` closure: the viewport
ratios and bounding rectangle read once at gesture start, and the previous
sample's rectangle-relative position. -/
structure TouchCtx where
  vprX : ℚ
  vprY : ℚ
  lastX : ℚ
  lastY : ℚ
  rectLeft : ℚ
  rectTop : ℚ
deriving DecidableEq, Repr

/-- Embeds the `mousedown.flatMap` gesture-start logic (source lines 195-213):
no gesture while the UI is disabled or no piece was clicked, no gesture when the
clicked piece's color is not the side to move; otherwise capture the viewport
ratios and the down position, lift the piece, and highlight its legal moves. -/
def SVGChessBoard.mousedragStart (dom : Dom) (eng : EngineState) (st : SVGChessBoard)
    (md : MouseEv) : Option DragCtx × SVGChessBoard :=
  if st.isDisabled then (none, st) else
  match st.dragPiece with
  | none => (none, st)
  | some dpi =>
    match st.pieces[dpi]? with
    | none => (none, st)
    | some h =>
      if eng.pieceColor h.piece ≠ eng.turnColor then (none, st)
      else
        let ctx : DragCtx :=
          { vprX := SVGChessBoard.ratioX dom, vprY := SVGChessBoard.ratioY dom,
            lastX := md.pageX, lastY := md.pageY }
        let st1 := st.modifyPiece dpi SVGChessPiece.dragStart
        (some ctx, { st1 with highlighted := eng.moves h.piece })

/-- Embeds one `mousemove.map` sample (source lines 216-235): the page position is
translated and unscaled, the delta from the previous sample is taken, the previous
sample is updated to the raw page position, and the delta is scaled by the
gesture-start viewport ratios. -/
def SVGChessBoard.mousemoveStep (dom : Dom) (ctx : DragCtx) (mm : MouseEv) :
    (ℚ × ℚ) × DragCtx :=
  let x := (mm.pageX - dom.translateX) / dom.currentScale
  let y := (mm.pageY - dom.translateY) / dom.currentScale
  let rx := (x - ctx.lastX) * ctx.vprX
  let ry := (y - ctx.lastY) * ctx.vprY
  ((rx, ry), { ctx with lastX := mm.pageX, lastY := mm.pageY })

/-- The stream of position updates one mouse gesture emits, each move event paired
with the DOM state at the instant it fires. -/
def runMouseDrag (ctx : DragCtx) : List (Dom × MouseEv) → List (ℚ × ℚ)
  | [] => []
  | de :: rest =>
    let step := SVGChessBoard.mousemoveStep de.1 ctx de.2
    step.1 :: runMouseDrag step.2 rest

/-- The emissions of the gesture stream `mousedown.flatMap` returns: an absent
gesture is the empty stream. -/
def mousedragEmissions : Option DragCtx → List (Dom × MouseEv) → List (ℚ × ℚ)
  | none, _ => []
  | some ctx, evs => runMouseDrag ctx evs

/-- The candidate-piece resolution of the `touchstart` handler (source lines
244-249): the touch point made rectangle-relative, scaled by the viewport ratios,
mapped to a square index, then the first piece component whose logical piece's
block index equals it. -/
def SVGChessBoard.touchCandidate (dom : Dom) (eng : EngineState) (st : SVGChessBoard)
    (t : ℚ × ℚ) : Option Nat :=
  let lastX := t.1 - dom.rectLeft
  let lastY := t.2 - dom.rectTop
  let dropBlockIndex :=
    BaseBlock.pointToIndex (lastX * SVGChessBoard.ratioX dom) (lastY * SVGChessBoard.ratioY dom)
  (List.range st.pieces.length).find? (fun pi =>
    match st.pieces[pi]? with
    | some p => ((eng.pieceBlock p.piece).index : ℤ) == dropBlockIndex
    | none => false)

/-- Embeds the `touchstart.flatMap` gesture-start logic (source lines 239-267):
no gesture while disabled or with no touches; the drag reference is reassigned to
the piece found at the touch point (even replacing a previous one); no gesture if
none was found or its color is not the side to move; otherwise capture the
ratios, lift the piece and highlight its legal moves. -/
def SVGChessBoard.touchdragStart (dom : Dom) (eng : EngineState) (st : SVGChessBoard)
    (md : TouchEv) : Option TouchCtx × SVGChessBoard :=
  if st.isDisabled then (none, st) else
  match md.touches[0]? with
  | none => (none, st)
  | some t =>
    let cand := SVGChessBoard.touchCandidate dom eng st t
    let st1 := { st with dragPiece := cand }
    match cand with
    | none => (none, st1)
    | some dpi =>
      match st1.pieces[dpi]? with
      | none => (none, st1)
      | some h =>
        if eng.pieceColor h.piece ≠ eng.turnColor then (none, st1)
        else
          let ctx : TouchCtx :=
            { vprX := SVGChessBoard.ratioX dom, vprY := SVGChessBoard.ratioY dom,
              lastX := t.1 - dom.rectLeft, lastY := t.2 - dom.rectTop,
              rectLeft := dom.rectLeft, rectTop := dom.rectTop }
          let st2 := st1.modifyPiece dpi SVGChessPiece.dragStart
          (some ctx, { st2 with highlighted := eng.moves h.piece })

/-- Embeds one `touchmove.map` sample (source lines 269-290): the touch point is
made relative to the gesture-start rectangle, translated and unscaled, the delta
from the previous sample is taken, the previous sample becomes the new
rectangle-relative point, and the delta is scaled by the gesture-start ratios. -/
def SVGChessBoard.touchmoveStep (dom : Dom) (ctx : TouchCtx) (mm : TouchEv) :
    (ℚ × ℚ) × TouchCtx :=
  let t := mm.touches.headD (0, 0)
  let x0 := t.1 - ctx.rectLeft
  let y0 := t.2 - ctx.rectTop
  let x := (x0 - dom.translateX) / dom.currentScale
  let y := (y0 - dom.translateY) / dom.currentScale
  let rx := (x - ctx.lastX) * ctx.vprX
  let ry := (y - ctx.lastY) * ctx.vprY
  ((rx, ry), { ctx with lastX := t.1 - ctx.rectLeft, lastY := t.2 - ctx.rectTop })

/-- The stream of position updates one touch gesture emits. -/
def runTouchDrag (ctx : TouchCtx) : List (Dom × TouchEv) → List (ℚ × ℚ)
  | [] => []
  | de :: rest =>
    let step := SVGChessBoard.touchmoveStep de.1 ctx de.2
    step.1 :: runTouchDrag step.2 rest

/-- The emissions of the gesture stream `touchstart.flatMap` returns. -/
def touchdragEmissions : Option TouchCtx → List (Dom × TouchEv) → List (ℚ × ℚ)
  | none, _ => []
  | some ctx, evs => runTouchDrag ctx evs

/-- The world of rxjs subscriptions owned by one controller: a fresh-id counter
and the set of listeners not yet unsubscribed. -/
structure SubWorld where
  nextId : Nat
  active : List Nat
deriving DecidableEq, Repr

/-- Registers a listener: a fresh subscription id becomes active. -/
def SubWorld.newSub (w : SubWorld) : Nat × SubWorld :=
  (w.nextId, { nextId := w.nextId + 1, active := w.nextId :: w.active })

/-- Cancels a listener: `Subscription.unsubscribe`. -/
def SubWorld.cancel (w : SubWorld) (s : Nat) : SubWorld :=
  { w with active := w.active.filter (fun a => a ≠ s) }

/-- Embeds `SVGChessBoard.clearSubscriptions` (source lines 135-139): pop every
tracked subscription off `rxWaste` and unsubscribe it, until the stack is empty. -/
def SVGChessBoard.clearSubscriptions : List Nat → SubWorld → List Nat × SubWorld
  | [], w => ([], w)
  | s :: rest, w => SVGChessBoard.clearSubscriptions rest (w.cancel s)

/-- The subscription bookkeeping of `registerDragAndDrop` (source lines 295-306):
four listeners — the mouse drag stream, the touch drag stream, `mouseup` and
`touchend` — are subscribed and pushed onto `rxWaste`. -/
def SVGChessBoard.registerDragAndDropSubs (rx : List Nat) (w : SubWorld) :
    List Nat × SubWorld :=
  let a := w.newSub
  let b := a.2.newSub
  let c := b.2.newSub
  let d := c.2.newSub
  (d.1 :: c.1 :: b.1 :: a.1 :: rx, d.2)

/-- Embeds `SVGChessBoard.newGame` (source lines 119-133): clear every previous
subscription, reset busy/disabled, subscribe the engine's `boardSynced` and
`stateChanged` notifications, clear the banner, and re-register drag and drop. -/
def SVGChessBoard.newGame (st : SVGChessBoard) (w : SubWorld) :
    SVGChessBoard × SubWorld :=
  let c := SVGChessBoard.clearSubscriptions st.rxWaste w
  let st1 := { st with rxWaste := c.1, isBusy := false, isDisabled := false }
  let s1 := c.2.newSub
  let st2 := { st1 with rxWaste := s1.1 :: st1.rxWaste }
  let s2 := s1.2.newSub
  let st3 := { st2 with rxWaste := s2.1 :: st2.rxWaste, banner := none }
  let r := SVGChessBoard.registerDragAndDropSubs st3.rxWaste s2.2
  ({ st3 with rxWaste := r.1 }, r.2)

example : SVGChessBoard.askPromotionType = Promise.resolved PieceType.QUEEN := rfl

example : BaseBlock.pointToIndex 100 10 = 1 := by
  norm_num [BaseBlock.pointToIndex]

example : BaseBlock.pointToIndex 1000 1000 = 117 := by
  norm_num [BaseBlock.pointToIndex]

theorem modifyPiece_pieces_self {st : SVGChessBoard} {pi : Nat} {p : SVGChessPiece}
    (f : SVGChessPiece → SVGChessPiece) (h : st.pieces[pi]? = some p) :
    (st.modifyPiece pi f).pieces[pi]? = some (f p) := by
  unfold SVGChessBoard.modifyPiece
  rw [h]
  exact List.getElem?_set_self (List.getElem?_eq_some_iff.mp h).1

theorem modifyPiece_pieces_ne {st : SVGChessBoard} {pi pj : Nat}
    (f : SVGChessPiece → SVGChessPiece) (h : pi ≠ pj) :
    (st.modifyPiece pi f).pieces[pj]? = st.pieces[pj]? := by
  unfold SVGChessBoard.modifyPiece
  cases hp : st.pieces[pi]? with
  | none => rfl
  | some p => exact List.getElem?_set_ne h

theorem modifyPiece_blocks {st : SVGChessBoard} {pi : Nat}
    (f : SVGChessPiece → SVGChessPiece) :
    (st.modifyPiece pi f).blocks = st.blocks := by
  unfold SVGChessBoard.modifyPiece
  cases st.pieces[pi]? <;> rfl

theorem modifyPiece_dragPiece {st : SVGChessBoard} {pi : Nat}
    (f : SVGChessPiece → SVGChessPiece) :
    (st.modifyPiece pi f).dragPiece = st.dragPiece := by
  unfold SVGChessBoard.modifyPiece
  cases st.pieces[pi]? <;> rfl

theorem modifyPiece_pieces_length {st : SVGChessBoard} {pi : Nat}
    (f : SVGChessPiece → SVGChessPiece) :
    (st.modifyPiece pi f).pieces.length = st.pieces.length := by
  unfold SVGChessBoard.modifyPiece
  cases st.pieces[pi]? <;> simp

theorem modifyBlock_blocks_self {st : SVGChessBoard} {bi : Nat} {b : SVGChessBlock}
    (f : SVGChessBlock → SVGChessBlock) (h : st.blocks[bi]? = some b) :
    (st.modifyBlock bi f).blocks[bi]? = some (f b) := by
  unfold SVGChessBoard.modifyBlock
  rw [h]
  exact List.getElem?_set_self (List.getElem?_eq_some_iff.mp h).1

theorem modifyBlock_blocks_ne {st : SVGChessBoard} {bi bj : Nat}
    (f : SVGChessBlock → SVGChessBlock) (h : bi ≠ bj) :
    (st.modifyBlock bi f).blocks[bj]? = st.blocks[bj]? := by
  unfold SVGChessBoard.modifyBlock
  cases hb : st.blocks[bi]? with
  | none => rfl
  | some b => exact List.getElem?_set_ne h

theorem modifyBlock_pieces {st : SVGChessBoard} {bi : Nat}
    (f : SVGChessBlock → SVGChessBlock) :
    (st.modifyBlock bi f).pieces = st.pieces := by
  unfold SVGChessBoard.modifyBlock
  cases st.blocks[bi]? <;> rfl

theorem modifyBlock_dragPiece {st : SVGChessBoard} {bi : Nat}
    (f : SVGChessBlock → SVGChessBlock) :
    (st.modifyBlock bi f).dragPiece = st.dragPiece := by
  unfold SVGChessBoard.modifyBlock
  cases st.blocks[bi]? <;> rfl

theorem modifyBlock_blocks_length {st : SVGChessBoard} {bi : Nat}
    (f : SVGChessBlock → SVGChessBlock) :
    (st.modifyBlock bi f).blocks.length = st.blocks.length := by
  unfold SVGChessBoard.modifyBlock
  cases st.blocks[bi]? <;> simp

theorem endDragAndDrop_dragPiece (st : SVGChessBoard) :
    (SVGChessBoard.endDragAndDrop st).dragPiece = none := by
  unfold SVGChessBoard.endDragAndDrop
  cases st.dragPiece <;> rfl

theorem endDragAndDrop_highlighted (st : SVGChessBoard) :
    (SVGChessBoard.endDragAndDrop st).highlighted = [] := by
  unfold SVGChessBoard.endDragAndDrop
  cases st.dragPiece <;> rfl

theorem endDragAndDrop_blocks (st : SVGChessBoard) :
    (SVGChessBoard.endDragAndDrop st).blocks = st.blocks := by
  unfold SVGChessBoard.endDragAndDrop
  cases h : st.dragPiece with
  | none => rfl
  | some dpi => simpa using @modifyPiece_blocks st dpi SVGChessPiece.dragEnd

theorem endDragAndDrop_pieces_self {st : SVGChessBoard} {dpi : Nat} {p : SVGChessPiece}
    (hdp : st.dragPiece = some dpi) (hp : st.pieces[dpi]? = some p) :
    (SVGChessBoard.endDragAndDrop st).pieces[dpi]? = some (SVGChessPiece.dragEnd p) := by
  unfold SVGChessBoard.endDragAndDrop
  rw [hdp]
  simpa using modifyPiece_pieces_self SVGChessPiece.dragEnd hp

theorem endDragAndDrop_pieces_ne {st : SVGChessBoard} {dpi pj : Nat}
    (hdp : st.dragPiece = some dpi) (hne : dpi ≠ pj) :
    (SVGChessBoard.endDragAndDrop st).pieces[pj]? = st.pieces[pj]? := by
  unfold SVGChessBoard.endDragAndDrop
  rw [hdp]
  simpa using modifyPiece_pieces_ne SVGChessPiece.dragEnd hne

/-- A concrete rendered board used to instantiate the theorems: four block
components for squares 0-3 of the top row, and two piece components. -/
def fixBlocks : List SVGChessBlock :=
  [ { block := { id := 100, index := 0 }, piece := some 0 },
    { block := { id := 101, index := 1 }, piece := none },
    { block := { id := 102, index := 2 }, piece := some 1 },
    { block := { id := 103, index := 3 }, piece := none } ]

/-- Two concrete piece components: handle 0 holds logical piece 7 (mid-drag,
lifted), handle 1 holds logical piece 8. -/
def fixPieces : List SVGChessPiece :=
  [ { piece := 7, block := some 0, lifted := true, offset := (0, 0) },
    { piece := 8, block := some 2, lifted := false, offset := (0, 0) } ]

/-- A concrete engine: white piece 7 on square 0 with square 1 as its only legal
move, black piece 8 on square 2; white to move; no castling. -/
def fixEngine : EngineState :=
  { turnColor := PieceColor.WHITE,
    pieces := [7, 8],
    pieceColor := fun q => if q = 7 then PieceColor.WHITE else PieceColor.BLACK,
    pieceBlock := fun q => if q = 7 then { id := 100, index := 0 } else { id := 102, index := 2 },
    moves := fun q => if q = 7 then [{ id := 101, index := 1 }] else [],
    isCastling := fun _ _ => false,
    castlingSecondary := fun _ _ => none }

/-- A DOM snapshot with the SVG rendered at its authored size, unscaled and
untranslated, its rectangle at the page origin. -/
def fixDom : Dom :=
  { clientWidth := 600, clientHeight := 600, rectLeft := 0, rectTop := 0,
    currentScale := 1, translateX := 0, translateY := 0 }

/-- A concrete board state mid-drag: handle 0 is being dragged. -/
def fixBoard : SVGChessBoard :=
  { dragPiece := some 0, isBusy := false, isDisabled := false, banner := none,
    highlighted := [], rxWaste := [], blocks := fixBlocks, pieces := fixPieces }

/-- A drop far outside the rendered board (maps to square index 61). -/
def c4ev : DropEvent := { client := some (1000, 500), changedTouch := (0, 0) }

/-- A drop on square 2, which is not a legal destination of piece 7. -/
def c2ev : DropEvent := { client := some (160, 10), changedTouch := (0, 0) }

/-- Claim C10: `askPromotionType` always resolves immediately — never suspending
for a user choice — and always to `PieceType.QUEEN`; no other piece type can be
returned as a promotion choice. -/
theorem askPromotionType_always_queen_immediately :
    SVGChessBoard.askPromotionType = Promise.resolved PieceType.QUEEN ∧
    SVGChessBoard.askPromotionType ≠ Promise.pending := by
  exact ⟨rfl, by simp [SVGChessBoard.askPromotionType]⟩

/-- Claim C4: when the drop's device point maps to a square index with no
corresponding block component, the move authority is never invoked (no calls are
recorded and the engine is untouched), and the drag terminates with the dragged
piece reverted to its pre-drag visual position: still paired to its previous
square, lifted state and live offset cleared, drag reference cleared. -/
theorem drop_outside_board_never_calls_authority
    (dom : Dom) (eng : EngineState) (st : SVGChessBoard) (ev : DropEvent)
    (dpi : Nat) (h : SVGChessPiece)
    (hdp : st.dragPiece = some dpi)
    (hph : st.pieces[dpi]? = some h)
    (hout : blockAt st.blocks (SVGChessBoard.dropIndex dom ev) = none) :
    (SVGChessBoard.dropPiece dom eng st ev).2.2 = [] ∧
    (SVGChessBoard.dropPiece dom eng st ev).1 = eng ∧
    (SVGChessBoard.dropPiece dom eng st ev).2.1.pieces[dpi]? =
      some { h with lifted := false, offset := (0, 0) } ∧
    (SVGChessBoard.dropPiece dom eng st ev).2.1.dragPiece = none := by
  unfold SVGChessBoard.dropPiece
  rw [hout]
  refine ⟨rfl, rfl, ?_, endDragAndDrop_dragPiece st⟩
  simpa [SVGChessPiece.dragEnd] using endDragAndDrop_pieces_self hdp hph

/-- Claim C2: when the move authority reports the drop invalid, the rollback is
purely visual: the engine state is unchanged, the dragged piece's visual square
pairing after the drag equals its pairing before the drag (only the lifted state
and live offset are cleared), and the drag session is finalized — the drag
reference and the destination highlighting are cleared. -/
theorem invalid_drop_rolls_back_ui
    (dom : Dom) (eng : EngineState) (st : SVGChessBoard) (ev : DropEvent)
    (dpi : Nat) (h : SVGChessPiece) (dropBlock : SVGChessBlock)
    (hdp : st.dragPiece = some dpi)
    (hph : st.pieces[dpi]? = some h)
    (hin : blockAt st.blocks (SVGChessBoard.dropIndex dom ev) = some dropBlock)
    (hnot : dropBlock.block ∉ eng.moves h.piece) :
    (SVGChessBoard.dropPiece dom eng st ev).1 = eng ∧
    (SVGChessBoard.dropPiece dom eng st ev).2.1.pieces[dpi]? =
      some { h with lifted := false, offset := (0, 0) } ∧
    (SVGChessBoard.dropPiece dom eng st ev).2.1.dragPiece = none ∧
    (SVGChessBoard.dropPiece dom eng st ev).2.1.highlighted = [] := by
  have hred : SVGChessBoard.dropPiece dom eng st ev =
      (eng, SVGChessBoard.endDragAndDrop
        (st.modifyPiece dpi (fun p => p.reset 150)), [(h.piece, dropBlock.block)]) := by
    unfold SVGChessBoard.dropPiece ChessBoardController.move
    rw [hin, hdp]
    simp [hph, hnot, MoveResult.isCastlingMove]
  rw [hred]
  have hdp2 : (st.modifyPiece dpi (fun p => p.reset 150)).dragPiece = some dpi := by
    rw [modifyPiece_dragPiece, hdp]
  have hph2 : (st.modifyPiece dpi (fun p => p.reset 150)).pieces[dpi]? =
      some (h.reset 150) := modifyPiece_pieces_self _ hph
  refine ⟨rfl, ?_, endDragAndDrop_dragPiece _, endDragAndDrop_highlighted _⟩
  simpa [SVGChessPiece.dragEnd, SVGChessPiece.reset] using
    endDragAndDrop_pieces_self hdp2 hph2

/-- Witness for C4: at the concrete board, dropping at device point (1000, 500)
maps to index 61, where no block component exists; no authority call is recorded
and the engine is returned unchanged, the piece reverted. -/
theorem drop_outside_board_never_calls_authority_witness :
    blockAt fixBoard.blocks (SVGChessBoard.dropIndex fixDom c4ev) = none ∧
    (SVGChessBoard.dropPiece fixDom fixEngine fixBoard c4ev).2.2 = [] ∧
    (SVGChessBoard.dropPiece fixDom fixEngine fixBoard c4ev).1 = fixEngine ∧
    (SVGChessBoard.dropPiece fixDom fixEngine fixBoard c4ev).2.1.pieces[0]? =
      some { piece := 7, block := some 0, lifted := false, offset := (0, 0) } := by
  have hidx : SVGChessBoard.dropIndex fixDom c4ev = 61 := by
    norm_num [SVGChessBoard.dropIndex, BaseBlock.pointToIndex, SVGChessBoard.ratioX,
      SVGChessBoard.ratioY, fixDom, c4ev]
  have hout : blockAt fixBoard.blocks (SVGChessBoard.dropIndex fixDom c4ev) = none := by
    rw [hidx]; decide
  have main := drop_outside_board_never_calls_authority fixDom fixEngine fixBoard c4ev 0
    { piece := 7, block := some 0, lifted := true, offset := (0, 0) }
    (by decide) (by decide) hout
  exact ⟨hout, main.1, main.2.1, main.2.2.1⟩

/-- Witness for C2: at the concrete board, dropping piece 7 on square 2 (not a
legal destination, so the authority reports invalid) leaves the engine untouched
and the piece paired to its original square 0, with the session finalized. -/
theorem invalid_drop_rolls_back_ui_witness :
    blockAt fixBoard.blocks (SVGChessBoard.dropIndex fixDom c2ev) =
      some { block := { id := 102, index := 2 }, piece := some 1 } ∧
    (SVGChessBoard.dropPiece fixDom fixEngine fixBoard c2ev).1 = fixEngine ∧
    (SVGChessBoard.dropPiece fixDom fixEngine fixBoard c2ev).2.1.pieces[0]? =
      some { piece := 7, block := some 0, lifted := false, offset := (0, 0) } ∧
    (SVGChessBoard.dropPiece fixDom fixEngine fixBoard c2ev).2.1.dragPiece = none ∧
    (SVGChessBoard.dropPiece fixDom fixEngine fixBoard c2ev).2.1.highlighted = [] := by
  have hidx : SVGChessBoard.dropIndex fixDom c2ev = 2 := by
    norm_num [SVGChessBoard.dropIndex, BaseBlock.pointToIndex, SVGChessBoard.ratioX,
      SVGChessBoard.ratioY, fixDom, c2ev]
  have hin : blockAt fixBoard.blocks (SVGChessBoard.dropIndex fixDom c2ev) =
      some { block := { id := 102, index := 2 }, piece := some 1 } := by
    rw [hidx]; decide
  have main := invalid_drop_rolls_back_ui fixDom fixEngine fixBoard c2ev 0
    { piece := 7, block := some 0, lifted := true, offset := (0, 0) }
    { block := { id := 102, index := 2 }, piece := some 1 }
    (by decide) (by decide) hin (by decide)
  exact ⟨hin, main.1, main.2.1, main.2.2.1, main.2.2.2⟩

/-- Claim C7: a drag-start whose candidate piece's color differs from the
engine's side to move produces no gesture on either input path — the per-gesture
stream is empty (it never emits a position update) and no piece's lifted state is
entered: the mouse path leaves the state untouched, the touch path leaves every
piece component untouched. -/
theorem turn_mismatch_yields_empty_stream
    (dom : Dom) (eng : EngineState) (st : SVGChessBoard)
    (md : MouseEv) (mt : TouchEv) (dpi : Nat) (h : SVGChessPiece)
    (t : ℚ × ℚ) (ci : Nat) (hc : SVGChessPiece)
    (hdp : st.dragPiece = some dpi)
    (hph : st.pieces[dpi]? = some h)
    (hcol : eng.pieceColor h.piece ≠ eng.turnColor)
    (htt : mt.touches[0]? = some t)
    (hcand : SVGChessBoard.touchCandidate dom eng st t = some ci)
    (hcp : st.pieces[ci]? = some hc)
    (hcolT : eng.pieceColor hc.piece ≠ eng.turnColor) :
    SVGChessBoard.mousedragStart dom eng st md = (none, st) ∧
    (∀ evs, mousedragEmissions (SVGChessBoard.mousedragStart dom eng st md).1 evs = []) ∧
    (SVGChessBoard.touchdragStart dom eng st mt).1 = none ∧
    (SVGChessBoard.touchdragStart dom eng st mt).2.pieces = st.pieces ∧
    (∀ evs, touchdragEmissions (SVGChessBoard.touchdragStart dom eng st mt).1 evs = []) := by
  have hm : SVGChessBoard.mousedragStart dom eng st md = (none, st) := by
    unfold SVGChessBoard.mousedragStart
    by_cases hdis : st.isDisabled
    · simp [hdis]
    · simp [hdis, hdp, hph, hcol]
  have ht : (SVGChessBoard.touchdragStart dom eng st mt).1 = none ∧
      (SVGChessBoard.touchdragStart dom eng st mt).2.pieces = st.pieces := by
    unfold SVGChessBoard.touchdragStart
    by_cases hdis : st.isDisabled
    · simp [hdis]
    · simp [hdis, htt, hcand, hcp, hcolT]
  refine ⟨hm, ?_, ht.1, ht.2, ?_⟩
  · intro evs; rw [hm]; rfl
  · intro evs; rw [ht.1]; rfl

/-- A touch event landing on square 2 (occupied by piece 8). -/
def c3touch : TouchEv := { touches := [(160, 10)] }

/-- A board state like `fixBoard` but with black to move, so that piece 8 (black)
is the side to move while piece 7 (white) is still mid-drag. -/
def c3Engine : EngineState :=
  { fixEngine with
    turnColor := PieceColor.BLACK,
    moves := fun q => if q = 8 then [{ id := 103, index := 3 }] else [] }

/-- Counterexample for C3: at `fixBoard` a drag session is active for piece
handle 0 (lifted, drag reference set), yet a `touchstart` landing on the square
of the other piece is not a no-op: it replaces the session's piece reference
with handle 1 and replaces the highlighted legal-destination set. -/
theorem touchstart_second_drag_not_noop :
    fixBoard.dragPiece = some 0 ∧
    (fixBoard.pieces[0]?).map (fun p => p.lifted) = some true ∧
    (SVGChessBoard.touchdragStart fixDom c3Engine fixBoard c3touch).2.dragPiece = some 1 ∧
    (SVGChessBoard.touchdragStart fixDom c3Engine fixBoard c3touch).2.dragPiece ≠
      fixBoard.dragPiece ∧
    (SVGChessBoard.touchdragStart fixDom c3Engine fixBoard c3touch).2.highlighted =
      [{ id := 103, index := 3 }] := by
  have hcand : SVGChessBoard.touchCandidate fixDom c3Engine fixBoard (160, 10) = some 1 := by
    unfold SVGChessBoard.touchCandidate
    norm_num [BaseBlock.pointToIndex, SVGChessBoard.ratioX, SVGChessBoard.ratioY, fixDom]
    decide
  have hstep : (SVGChessBoard.touchdragStart fixDom c3Engine fixBoard c3touch).2 =
      { ({ fixBoard with dragPiece := some 1 } : SVGChessBoard).modifyPiece 1
          SVGChessPiece.dragStart with
        highlighted := c3Engine.moves 8 } := by
    unfold SVGChessBoard.touchdragStart
    simp [c3touch, hcand]
    decide
  refine ⟨rfl, by decide, ?_, ?_, ?_⟩
  · rw [hstep]; decide
  · rw [hstep]; decide
  · rw [hstep]; decide

/-- Claim C3 (amended): a touch drag-start arriving while a session is active is
not a no-op — it re-targets the session: the drag reference becomes the piece
found at the touch point, the highlighted legal-destination set becomes that
piece's, and a fresh gesture starts (the source reassigns `this.dragPiece`
unconditionally on the touch path before any session check). -/
theorem touchstart_retargets_active_session
    (dom : Dom) (eng : EngineState) (st : SVGChessBoard) (md : TouchEv)
    (t : ℚ × ℚ) (ci : Nat) (hc : SVGChessPiece)
    (hdis : st.isDisabled = false)
    (htt : md.touches[0]? = some t)
    (hcand : SVGChessBoard.touchCandidate dom eng st t = some ci)
    (hcp : st.pieces[ci]? = some hc)
    (hcol : eng.pieceColor hc.piece = eng.turnColor) :
    (SVGChessBoard.touchdragStart dom eng st md).2.dragPiece = some ci ∧
    (SVGChessBoard.touchdragStart dom eng st md).2.highlighted = eng.moves hc.piece ∧
    ((SVGChessBoard.touchdragStart dom eng st md).1).isSome = true := by
  unfold SVGChessBoard.touchdragStart
  simp [hdis, htt, hcand, hcp, hcol, modifyPiece_dragPiece]

/-- Witness for the amended C3: at the concrete board with a session active for
handle 0, the touch on square 2 re-targets the session to handle 1 and replaces
the highlight with piece 8's legal moves. -/
theorem touchstart_retargets_active_session_witness :
    fixBoard.dragPiece = some 0 ∧
    (SVGChessBoard.touchdragStart fixDom c3Engine fixBoard c3touch).2.dragPiece = some 1 ∧
    (SVGChessBoard.touchdragStart fixDom c3Engine fixBoard c3touch).2.highlighted =
      c3Engine.moves 8 := by
  have hcand : SVGChessBoard.touchCandidate fixDom c3Engine fixBoard (160, 10) = some 1 := by
    unfold SVGChessBoard.touchCandidate
    norm_num [BaseBlock.pointToIndex, SVGChessBoard.ratioX, SVGChessBoard.ratioY, fixDom]
    decide
  have main := touchstart_retargets_active_session fixDom c3Engine fixBoard c3touch (160, 10) 1
    { piece := 8, block := some 2, lifted := false, offset := (0, 0) }
    (by decide) (by decide) hcand (by decide) (by decide)
  exact ⟨rfl, main.1, main.2.1⟩

/-- Witness for C7: at the concrete board with black to move, the lifted white
piece 7 cannot start a gesture on either path; piece 8 is used as a touch
candidate with a color that matches, so instead use a candidate with a mismatch:
here both paths target piece 7 (white) while black is to move. -/
theorem turn_mismatch_yields_empty_stream_witness :
    SVGChessBoard.mousedragStart fixDom
      { fixEngine with turnColor := PieceColor.BLACK } fixBoard { pageX := 10, pageY := 10 } =
      (none, fixBoard) ∧
    (SVGChessBoard.touchdragStart fixDom
      { fixEngine with turnColor := PieceColor.BLACK } fixBoard { touches := [(10, 10)] }).1 =
      none ∧
    (SVGChessBoard.touchdragStart fixDom
      { fixEngine with turnColor := PieceColor.BLACK } fixBoard { touches := [(10, 10)] }).2.pieces =
      fixBoard.pieces := by
  have hcand : SVGChessBoard.touchCandidate fixDom
      { fixEngine with turnColor := PieceColor.BLACK } fixBoard (10, 10) = some 0 := by
    unfold SVGChessBoard.touchCandidate
    norm_num [BaseBlock.pointToIndex, SVGChessBoard.ratioX, SVGChessBoard.ratioY, fixDom]
    decide
  have main := turn_mismatch_yields_empty_stream fixDom
    { fixEngine with turnColor := PieceColor.BLACK } fixBoard
    { pageX := 10, pageY := 10 } { touches := [(10, 10)] } 0
    { piece := 7, block := some 0, lifted := true, offset := (0, 0) }
    (10, 10) 0
    { piece := 7, block := some 0, lifted := true, offset := (0, 0) }
    (by decide) (by decide) (by decide) (by decide) hcand (by decide) (by decide)
  exact ⟨main.1, main.2.2.1, main.2.2.2.1⟩

theorem clearSubscriptions_fst (rx : List Nat) (w : SubWorld) :
    (SVGChessBoard.clearSubscriptions rx w).1 = [] := by
  induction rx generalizing w with
  | nil => rfl
  | cons s rest ih => exact ih _

theorem clearSubscriptions_nextId (rx : List Nat) (w : SubWorld) :
    (SVGChessBoard.clearSubscriptions rx w).2.nextId = w.nextId := by
  induction rx generalizing w with
  | nil => rfl
  | cons s rest ih =>
    simpa [SVGChessBoard.clearSubscriptions, SubWorld.cancel] using ih (w.cancel s)

theorem mem_clearSubscriptions_active (rx : List Nat) (w : SubWorld) (s : Nat) :
    s ∈ (SVGChessBoard.clearSubscriptions rx w).2.active ↔ s ∈ w.active ∧ s ∉ rx := by
  induction rx generalizing w with
  | nil => simp [SVGChessBoard.clearSubscriptions]
  | cons r rest ih =>
    simp only [SVGChessBoard.clearSubscriptions]
    rw [ih]
    simp only [SubWorld.cancel, List.mem_filter, List.mem_cons, decide_eq_true_eq]
    tauto

/-- Claim C6: `newGame` cancels every listener of the previous game before any
new listener is registered — immediately after the cancellation step both the
tracked stack and the set of active listeners are empty, and no listener tracked
before the reset is active after `newGame` completes.  The hypotheses are the
controller's bookkeeping invariants: every active listener was pushed onto
`rxWaste`, and every tracked id was allocated before the current counter. -/
theorem newGame_drains_all_listeners (st : SVGChessBoard) (w : SubWorld)
    (htracked : ∀ s ∈ w.active, s ∈ st.rxWaste)
    (hfresh : ∀ s ∈ st.rxWaste, s < w.nextId) :
    (SVGChessBoard.clearSubscriptions st.rxWaste w).1 = [] ∧
    (SVGChessBoard.clearSubscriptions st.rxWaste w).2.active = [] ∧
    ∀ s ∈ st.rxWaste, s ∉ (SVGChessBoard.newGame st w).2.active := by
  have hempty : (SVGChessBoard.clearSubscriptions st.rxWaste w).2.active = [] := by
    rw [List.eq_nil_iff_forall_not_mem]
    intro s hs
    rcases (mem_clearSubscriptions_active _ _ _).mp hs with ⟨ha, hnot⟩
    exact hnot (htracked s ha)
  refine ⟨clearSubscriptions_fst _ _, hempty, ?_⟩
  intro s hsrx hsact
  have hlt : s < w.nextId := hfresh s hsrx
  have hnid := clearSubscriptions_nextId st.rxWaste w
  simp only [SVGChessBoard.newGame, SVGChessBoard.registerDragAndDropSubs, SubWorld.newSub,
    List.mem_cons, hempty, List.not_mem_nil, or_false] at hsact
  omega

/-- Witness for C6: a concrete world with two listeners from the previous game,
both tracked; after the clear both are gone and `newGame` leaves none of them
active. -/
theorem newGame_drains_all_listeners_witness :
    (SVGChessBoard.clearSubscriptions ({ fixBoard with rxWaste := [0, 1] }
      : SVGChessBoard).rxWaste { nextId := 2, active := [1, 0] }).1 = [] ∧
    (SVGChessBoard.clearSubscriptions ({ fixBoard with rxWaste := [0, 1] }
      : SVGChessBoard).rxWaste { nextId := 2, active := [1, 0] }).2.active = [] ∧
    ∀ s ∈ ({ fixBoard with rxWaste := [0, 1] } : SVGChessBoard).rxWaste,
      s ∉ (SVGChessBoard.newGame { fixBoard with rxWaste := [0, 1] }
        { nextId := 2, active := [1, 0] }).2.active := by
  exact newGame_drains_all_listeners { fixBoard with rxWaste := [0, 1] }
    { nextId := 2, active := [1, 0] } (by decide) (by decide)

/-- Claim C9: when the UI move operation is handed a logical piece with no
matching piece component yet, but the piece is in the engine's collection, the
operation does not fail: it schedules a deferred retry; and at any later render
state where the component exists, re-running it completes the visual re-pairing
to the block component at the piece's block index. -/
theorem move_defers_until_handle_exists (eng : EngineState) (st : SVGChessBoard) (pid : Nat)
    (habsent : ∀ (pi : Nat) (p : SVGChessPiece), st.pieces[pi]? = some p → p.piece ≠ pid)
    (hcoll : pid ∈ eng.pieces) :
    SVGChessBoard.move eng st pid = (st, true) ∧
    ∀ (st2 : SVGChessBoard) (pi : Nat) (p : SVGChessPiece),
      st2.pieces[pi]? = some p → p.piece = pid →
      (∀ (pj : Nat) (q : SVGChessPiece), st2.pieces[pj]? = some q → q.piece = pid → pj = pi) →
      (eng.pieceBlock pid).index < st2.blocks.length →
      (SVGChessBoard.move eng st2 pid).2 = false ∧
      (SVGChessBoard.move eng st2 pid).1.pieces[pi]? =
        some { p with block := some (eng.pieceBlock pid).index, offset := (0, 0) } := by
  constructor
  · have hfind : (List.range st.pieces.length).find? (fun pi =>
        match st.pieces[pi]? with
        | some p => p.piece == pid
        | none => false) = none := by
      rw [List.find?_eq_none]
      intro x hx
      cases hp : st.pieces[x]? with
      | none => simp
      | some p => simp [habsent x p hp]
    unfold SVGChessBoard.move
    rw [hfind, if_pos hcoll]
  · intro st2 pi p hp hpe huniq hlt
    have hfind2 : (List.range st2.pieces.length).find? (fun pj =>
        match st2.pieces[pj]? with
        | some q => q.piece == pid
        | none => false) = some pi := by
      have hsome : ((List.range st2.pieces.length).find? (fun pj =>
          match st2.pieces[pj]? with
          | some q => q.piece == pid
          | none => false)).isSome := by
        rw [List.find?_isSome]
        exact ⟨pi, List.mem_range.mpr (List.getElem?_eq_some_iff.mp hp).1, by simp [hp, hpe]⟩
      obtain ⟨pj, hpj⟩ := Option.isSome_iff_exists.mp hsome
      have hped := List.find?_some hpj
      cases hq : st2.pieces[pj]? with
      | none => rw [hq] at hped; simp at hped
      | some q =>
        rw [hq] at hped
        simp only [beq_iff_eq] at hped
        rw [huniq pj q hq hped] at hpj
        exact hpj
    have hred : SVGChessBoard.move eng st2 pid =
        ((st2.modifyPiece pi (fun q =>
            { q with block := some (eng.pieceBlock pid).index, offset := (0, 0) })).modifyBlock
          (eng.pieceBlock pid).index (fun b => { b with piece := some pi }), false) := by
      unfold SVGChessBoard.move
      rw [hfind2]
      simp [hlt]
    rw [hred]
    refine ⟨rfl, ?_⟩
    rw [modifyBlock_pieces]
    exact modifyPiece_pieces_self _ hp

/-- The engine for the C9 witness: logical piece 9 on square 1, in the collection. -/
def c9Engine : EngineState :=
  { fixEngine with pieces := [9], pieceBlock := fun _ => { id := 101, index := 1 } }

/-- A rendered state with no piece components at all. -/
def c9Empty : SVGChessBoard := { fixBoard with pieces := [], dragPiece := none }

/-- A later rendered state where the component for piece 9 exists. -/
def c9Later : SVGChessBoard :=
  { fixBoard with
    pieces := [{ piece := 9, block := none, lifted := false, offset := (0, 0) }] }

/-- Witness for C9: with no component for piece 9 the operation defers; at the
later state it applies and pairs handle 0 with block 1. -/
theorem move_defers_until_handle_exists_witness :
    SVGChessBoard.move c9Engine c9Empty 9 = (c9Empty, true) ∧
    (SVGChessBoard.move c9Engine c9Later 9).2 = false ∧
    (SVGChessBoard.move c9Engine c9Later 9).1.pieces[0]? =
      some { piece := 9, block := some 1, lifted := false, offset := (0, 0) } := by
  have main := move_defers_until_handle_exists c9Engine c9Empty 9
    (by intro pi p hp; simp [c9Empty, fixBoard] at hp) (by decide)
  have later := main.2 c9Later 0
    { piece := 9, block := none, lifted := false, offset := (0, 0) }
    (by decide) (by decide)
    (by
      intro pj q hq hqe
      have hb := (List.getElem?_eq_some_iff.mp hq).1
      simp [c9Later, fixBoard] at hb
      omega)
    (by decide)
  exact ⟨main.1, later.1, later.2⟩

/-- The x page position of the sample preceding sample `i` of a mouse gesture:
the `mousedown` position for the first sample, the previous move event's raw
page position afterwards (the source stores `mm.pageX` into `lastX`). -/
def prevSampleX (startX : ℚ) (evs : List (Dom × MouseEv)) : Nat → ℚ
  | 0 => startX
  | j + 1 => ((evs[j]?).map (fun de => de.2.pageX)).getD startX

/-- The y page position of the sample preceding sample `i` of a mouse gesture. -/
def prevSampleY (startY : ℚ) (evs : List (Dom × MouseEv)) : Nat → ℚ
  | 0 => startY
  | j + 1 => ((evs[j]?).map (fun de => de.2.pageY)).getD startY

/-- The rectangle-relative x position of the sample preceding sample `i` of a
touch gesture (the source stores `mm.touches[0].pageX - rect.left`). -/
def prevTouchX (startX rectL : ℚ) (evs : List (Dom × TouchEv)) : Nat → ℚ
  | 0 => startX
  | j + 1 => ((evs[j]?).map (fun de => (de.2.touches.headD (0, 0)).1 - rectL)).getD startX

/-- The rectangle-relative y position of the sample preceding sample `i` of a
touch gesture. -/
def prevTouchY (startY rectT : ℚ) (evs : List (Dom × TouchEv)) : Nat → ℚ
  | 0 => startY
  | j + 1 => ((evs[j]?).map (fun de => (de.2.touches.headD (0, 0)).2 - rectT)).getD startY

theorem prevSampleX_cons (startX : ℚ) (hd : Dom × MouseEv) (tl : List (Dom × MouseEv))
    (j : Nat) (hj : j < tl.length) :
    prevSampleX hd.2.pageX tl j = prevSampleX startX (hd :: tl) (j + 1) := by
  cases j with
  | zero => simp [prevSampleX]
  | succ k =>
    have hk : k < tl.length := by omega
    simp [prevSampleX, List.getElem?_eq_getElem hk]

theorem prevSampleY_cons (startY : ℚ) (hd : Dom × MouseEv) (tl : List (Dom × MouseEv))
    (j : Nat) (hj : j < tl.length) :
    prevSampleY hd.2.pageY tl j = prevSampleY startY (hd :: tl) (j + 1) := by
  cases j with
  | zero => simp [prevSampleY]
  | succ k =>
    have hk : k < tl.length := by omega
    simp [prevSampleY, List.getElem?_eq_getElem hk]

theorem prevTouchX_cons (startX rectL : ℚ) (hd : Dom × TouchEv) (tl : List (Dom × TouchEv))
    (j : Nat) (hj : j < tl.length) :
    prevTouchX ((hd.2.touches.headD (0, 0)).1 - rectL) rectL tl j =
      prevTouchX startX rectL (hd :: tl) (j + 1) := by
  cases j with
  | zero => simp [prevTouchX]
  | succ k =>
    have hk : k < tl.length := by omega
    simp [prevTouchX, List.getElem?_eq_getElem hk]

theorem prevTouchY_cons (startY rectT : ℚ) (hd : Dom × TouchEv) (tl : List (Dom × TouchEv))
    (j : Nat) (hj : j < tl.length) :
    prevTouchY ((hd.2.touches.headD (0, 0)).2 - rectT) rectT tl j =
      prevTouchY startY rectT (hd :: tl) (j + 1) := by
  cases j with
  | zero => simp [prevTouchY]
  | succ k =>
    have hk : k < tl.length := by omega
    simp [prevTouchY, List.getElem?_eq_getElem hk]

theorem runMouseDrag_getElem (evs : List (Dom × MouseEv)) :
    ∀ (ctx : DragCtx) (i : Nat) (d : Dom) (e : MouseEv), evs[i]? = some (d, e) →
    (runMouseDrag ctx evs)[i]? = some
      (((e.pageX - d.translateX) / d.currentScale - prevSampleX ctx.lastX evs i) * ctx.vprX,
       ((e.pageY - d.translateY) / d.currentScale - prevSampleY ctx.lastY evs i) * ctx.vprY) := by
  induction evs with
  | nil => intro ctx i d e h; simp at h
  | cons hd tl ih =>
    intro ctx i d e h
    cases i with
    | zero =>
      rw [List.getElem?_cons_zero] at h
      have hde : hd = (d, e) := by injection h
      subst hde
      simp [runMouseDrag, SVGChessBoard.mousemoveStep, prevSampleX, prevSampleY]
    | succ j =>
      have hj : j < tl.length := by
        have := (List.getElem?_eq_some_iff.mp h).1
        simpa using this
      rw [List.getElem?_cons_succ] at h
      have hih := ih { ctx with lastX := hd.2.pageX, lastY := hd.2.pageY } j d e h
      have hstep : (SVGChessBoard.mousemoveStep hd.1 ctx hd.2).2 =
          { ctx with lastX := hd.2.pageX, lastY := hd.2.pageY } := rfl
      show (runMouseDrag ctx (hd :: tl))[j + 1]? = _
      rw [show runMouseDrag ctx (hd :: tl) =
        (SVGChessBoard.mousemoveStep hd.1 ctx hd.2).1 ::
          runMouseDrag (SVGChessBoard.mousemoveStep hd.1 ctx hd.2).2 tl from rfl]
      rw [List.getElem?_cons_succ, hstep, hih,
        prevSampleX_cons ctx.lastX hd tl j hj, prevSampleY_cons ctx.lastY hd tl j hj]

theorem runTouchDrag_getElem (evs : List (Dom × TouchEv)) :
    ∀ (ctx : TouchCtx) (i : Nat) (d : Dom) (e : TouchEv), evs[i]? = some (d, e) →
    (runTouchDrag ctx evs)[i]? = some
      ((((e.touches.headD (0, 0)).1 - ctx.rectLeft - d.translateX) / d.currentScale -
          prevTouchX ctx.lastX ctx.rectLeft evs i) * ctx.vprX,
       (((e.touches.headD (0, 0)).2 - ctx.rectTop - d.translateY) / d.currentScale -
          prevTouchY ctx.lastY ctx.rectTop evs i) * ctx.vprY) := by
  induction evs with
  | nil => intro ctx i d e h; simp at h
  | cons hd tl ih =>
    intro ctx i d e h
    cases i with
    | zero =>
      rw [List.getElem?_cons_zero] at h
      have hde : hd = (d, e) := by injection h
      subst hde
      simp [runTouchDrag, SVGChessBoard.touchmoveStep, prevTouchX, prevTouchY]
    | succ j =>
      have hj : j < tl.length := by
        have := (List.getElem?_eq_some_iff.mp h).1
        simpa using this
      rw [List.getElem?_cons_succ] at h
      have hih := ih
        { ctx with
          lastX := (hd.2.touches.headD (0, 0)).1 - ctx.rectLeft,
          lastY := (hd.2.touches.headD (0, 0)).2 - ctx.rectTop } j d e h
      have hstep : (SVGChessBoard.touchmoveStep hd.1 ctx hd.2).2 =
          { ctx with
            lastX := (hd.2.touches.headD (0, 0)).1 - ctx.rectLeft,
            lastY := (hd.2.touches.headD (0, 0)).2 - ctx.rectTop } := rfl
      show (runTouchDrag ctx (hd :: tl))[j + 1]? = _
      rw [show runTouchDrag ctx (hd :: tl) =
        (SVGChessBoard.touchmoveStep hd.1 ctx hd.2).1 ::
          runTouchDrag (SVGChessBoard.touchmoveStep hd.1 ctx hd.2).2 tl from rfl]
      rw [List.getElem?_cons_succ, hstep, hih,
        prevTouchX_cons ctx.lastX ctx.rectLeft hd tl j hj,
        prevTouchY_cons ctx.lastY ctx.rectTop hd tl j hj]

theorem mousedragStart_ctx (dom : Dom) (eng : EngineState) (st : SVGChessBoard)
    (md : MouseEv) (ctx : DragCtx)
    (h : (SVGChessBoard.mousedragStart dom eng st md).1 = some ctx) :
    ctx = { vprX := SVGChessBoard.ratioX dom, vprY := SVGChessBoard.ratioY dom,
            lastX := md.pageX, lastY := md.pageY } := by
  unfold SVGChessBoard.mousedragStart at h
  by_cases hdis : st.isDisabled
  · simp [hdis] at h
  · rw [if_neg hdis] at h
    cases hdp : st.dragPiece with
    | none => simp only [hdp] at h; simp at h
    | some dpi =>
      simp only [hdp] at h
      cases hph : st.pieces[dpi]? with
      | none => simp only [hph] at h; simp at h
      | some p =>
        simp only [hph] at h
        by_cases hcol : eng.pieceColor p.piece ≠ eng.turnColor
        · rw [if_pos hcol] at h; simp at h
        · rw [if_neg hcol] at h
          simp at h
          exact h.symm

theorem touchdragStart_ctx (dom : Dom) (eng : EngineState) (st : SVGChessBoard)
    (mt : TouchEv) (ctx : TouchCtx)
    (h : (SVGChessBoard.touchdragStart dom eng st mt).1 = some ctx) :
    ctx.vprX = SVGChessBoard.ratioX dom ∧ ctx.vprY = SVGChessBoard.ratioY dom ∧
    ctx.rectLeft = dom.rectLeft ∧ ctx.rectTop = dom.rectTop := by
  unfold SVGChessBoard.touchdragStart at h
  by_cases hdis : st.isDisabled
  · simp [hdis] at h
  · rw [if_neg hdis] at h
    cases htt : mt.touches[0]? with
    | none => simp only [htt] at h; simp at h
    | some t =>
      simp only [htt] at h
      cases hcand : SVGChessBoard.touchCandidate dom eng st t with
      | none => simp [hcand] at h
      | some ci =>
        simp only [hcand] at h
        cases hcp : ({ st with dragPiece := some ci } : SVGChessBoard).pieces[ci]? with
        | none => simp only [hcp] at h; simp at h
        | some hc =>
          simp only [hcp] at h
          by_cases hcol : eng.pieceColor hc.piece ≠ eng.turnColor
          · rw [if_pos hcol] at h; simp at h
          · rw [if_neg hcol] at h
            simp at h
            rw [← h]
            exact ⟨rfl, rfl, rfl, rfl⟩

/-- Claim C8: within one drag gesture (mouse or touch path), each emitted
position update is the difference between the current sample's board-local
position (page position translated and unscaled; rectangle-relative first on the
touch path) and the previous sample's stored position, multiplied per axis by
the viewport ratio captured from the DOM exactly once at gesture start (`dom0`),
never from the DOM state `d` of any later move event. -/
theorem drag_emissions_are_scaled_deltas
    (dom0 : Dom) (eng : EngineState) (st : SVGChessBoard)
    (md : MouseEv) (mt : TouchEv) (ctx : DragCtx) (tctx : TouchCtx)
    (hms : (SVGChessBoard.mousedragStart dom0 eng st md).1 = some ctx)
    (hts : (SVGChessBoard.touchdragStart dom0 eng st mt).1 = some tctx) :
    (ctx.vprX = SVGChessBoard.ratioX dom0 ∧ ctx.vprY = SVGChessBoard.ratioY dom0 ∧
      ctx.lastX = md.pageX ∧ ctx.lastY = md.pageY ∧
      ∀ (evs : List (Dom × MouseEv)) (i : Nat) (d : Dom) (e : MouseEv),
        evs[i]? = some (d, e) →
        (runMouseDrag ctx evs)[i]? = some
          (((e.pageX - d.translateX) / d.currentScale - prevSampleX md.pageX evs i) *
              SVGChessBoard.ratioX dom0,
           ((e.pageY - d.translateY) / d.currentScale - prevSampleY md.pageY evs i) *
              SVGChessBoard.ratioY dom0)) ∧
    (tctx.vprX = SVGChessBoard.ratioX dom0 ∧ tctx.vprY = SVGChessBoard.ratioY dom0 ∧
      tctx.rectLeft = dom0.rectLeft ∧ tctx.rectTop = dom0.rectTop ∧
      ∀ (evs : List (Dom × TouchEv)) (i : Nat) (d : Dom) (e : TouchEv),
        evs[i]? = some (d, e) →
        (runTouchDrag tctx evs)[i]? = some
          ((((e.touches.headD (0, 0)).1 - dom0.rectLeft - d.translateX) / d.currentScale -
              prevTouchX tctx.lastX dom0.rectLeft evs i) * SVGChessBoard.ratioX dom0,
           (((e.touches.headD (0, 0)).2 - dom0.rectTop - d.translateY) / d.currentScale -
              prevTouchY tctx.lastY dom0.rectTop evs i) * SVGChessBoard.ratioY dom0)) := by
  have hcm := mousedragStart_ctx dom0 eng st md ctx hms
  have hct := touchdragStart_ctx dom0 eng st mt tctx hts
  constructor
  · refine ⟨by rw [hcm], by rw [hcm], by rw [hcm], by rw [hcm], ?_⟩
    intro evs i d e he
    have := runMouseDrag_getElem evs ctx i d e he
    rw [this, hcm]
  · refine ⟨hct.1, hct.2.1, hct.2.2.1, hct.2.2.2, ?_⟩
    intro evs i d e he
    have := runTouchDrag_getElem evs tctx i d e he
    rw [this, hct.1, hct.2.1, hct.2.2.1, hct.2.2.2]

/-- A DOM snapshot rendered at half size, so the viewport ratios are 2. -/
def c8dom : Dom :=
  { clientWidth := 300, clientHeight := 300, rectLeft := 0, rectTop := 0,
    currentScale := 1, translateX := 0, translateY := 0 }

/-- The gesture-start mouse event for the C8 witness. -/
def c8md : MouseEv := { pageX := 10, pageY := 20 }

/-- The gesture-start touch event for the C8 witness (lands on square 0). -/
def c8mt : TouchEv := { touches := [(30, 10)] }

/-- The drag context `mousedown` captures for the C8 witness. -/
def c8ctx : DragCtx :=
  { vprX := SVGChessBoard.ratioX c8dom, vprY := SVGChessBoard.ratioY c8dom,
    lastX := 10, lastY := 20 }

/-- The drag context `touchstart` captures for the C8 witness. -/
def c8tctx : TouchCtx :=
  { vprX := SVGChessBoard.ratioX c8dom, vprY := SVGChessBoard.ratioY c8dom,
    lastX := (30 : ℚ) - c8dom.rectLeft, lastY := (10 : ℚ) - c8dom.rectTop,
    rectLeft := c8dom.rectLeft, rectTop := c8dom.rectTop }

/-- A DOM snapshot with a different size at the instant of a later move event,
to exhibit that its ratio is not what scales the emission. -/
def c8dLater : Dom :=
  { clientWidth := 150, clientHeight := 150, rectLeft := 0, rectTop := 0,
    currentScale := 1, translateX := 0, translateY := 0 }

/-- The single move event of the witness gesture. -/
def c8mm : MouseEv := { pageX := 13, pageY := 24 }

/-- Witness for C8: both gestures start at the concrete board; the first mouse
emission is the delta from the down position scaled by the start ratio, even
though the move event carries a DOM whose own ratio differs. -/
theorem drag_emissions_are_scaled_deltas_witness :
    (SVGChessBoard.mousedragStart c8dom fixEngine fixBoard c8md).1 = some c8ctx ∧
    (SVGChessBoard.touchdragStart c8dom fixEngine fixBoard c8mt).1 = some c8tctx ∧
    (runMouseDrag c8ctx [(c8dLater, c8mm)])[0]? = some
      (((c8mm.pageX - c8dLater.translateX) / c8dLater.currentScale -
          prevSampleX c8md.pageX [(c8dLater, c8mm)] 0) * SVGChessBoard.ratioX c8dom,
       ((c8mm.pageY - c8dLater.translateY) / c8dLater.currentScale -
          prevSampleY c8md.pageY [(c8dLater, c8mm)] 0) * SVGChessBoard.ratioY c8dom) := by
  have hms : (SVGChessBoard.mousedragStart c8dom fixEngine fixBoard c8md).1 = some c8ctx := rfl
  have hcand : SVGChessBoard.touchCandidate c8dom fixEngine fixBoard (30, 10) = some 0 := by
    unfold SVGChessBoard.touchCandidate
    norm_num [BaseBlock.pointToIndex, SVGChessBoard.ratioX, SVGChessBoard.ratioY, c8dom]
    decide
  have hts : (SVGChessBoard.touchdragStart c8dom fixEngine fixBoard c8mt).1 = some c8tctx := by
    unfold SVGChessBoard.touchdragStart
    simp only [show fixBoard.isDisabled = false from rfl, Bool.false_eq_true, if_false,
      show c8mt.touches[0]? = some ((30 : ℚ), (10 : ℚ)) from rfl, hcand]
    rfl
  have main := drag_emissions_are_scaled_deltas c8dom fixEngine fixBoard c8md c8mt
    c8ctx c8tctx hms hts
  exact ⟨hms, hts, main.1.2.2.2.2 [(c8dLater, c8mm)] 0 c8dLater c8mm rfl⟩

/-- The part of the board state the reconciler sweep reads but never writes:
query-list lengths, each block component's logical block reference, and each
piece component's logical piece reference. -/
structure Statics (s t : SVGChessBoard) : Prop where
  plen : s.pieces.length = t.pieces.length
  blen : s.blocks.length = t.blocks.length
  bmap : ∀ (j : Nat), (s.blocks[j]?).map (fun (b : SVGChessBlock) => b.block) =
    (t.blocks[j]?).map (fun (b : SVGChessBlock) => b.block)
  pmap : ∀ (j : Nat), (s.pieces[j]?).map (fun (p : SVGChessPiece) => p.piece) =
    (t.pieces[j]?).map (fun (p : SVGChessPiece) => p.piece)

theorem statics_self (s : SVGChessBoard) : Statics s s :=
  ⟨rfl, rfl, fun _ => rfl, fun _ => rfl⟩

theorem statics_trans {s t u : SVGChessBoard} (h1 : Statics s t) (h2 : Statics t u) :
    Statics s u :=
  ⟨h1.plen.trans h2.plen, h1.blen.trans h2.blen,
   fun j => (h1.bmap j).trans (h2.bmap j),
   fun j => (h1.pmap j).trans (h2.pmap j)⟩

theorem statics_modifyPiece (st : SVGChessBoard) (pi : Nat)
    (f : SVGChessPiece → SVGChessPiece) (hf : ∀ p, (f p).piece = p.piece) :
    Statics st (st.modifyPiece pi f) := by
  refine ⟨(modifyPiece_pieces_length f).symm, ?_, ?_, ?_⟩
  · rw [modifyPiece_blocks]
  · intro j; rw [modifyPiece_blocks]
  · intro j
    by_cases hj : pi = j
    · subst hj
      cases hp : st.pieces[pi]? with
      | none =>
        unfold SVGChessBoard.modifyPiece
        simp [hp]
      | some p => rw [modifyPiece_pieces_self f hp]; simp [hp, hf]
    · rw [modifyPiece_pieces_ne f hj]

theorem statics_modifyBlock (st : SVGChessBoard) (bi : Nat)
    (f : SVGChessBlock → SVGChessBlock) (hf : ∀ b, (f b).block = b.block) :
    Statics st (st.modifyBlock bi f) := by
  refine ⟨?_, (modifyBlock_blocks_length f).symm, ?_, ?_⟩
  · rw [modifyBlock_pieces]
  · intro j
    by_cases hj : bi = j
    · subst hj
      cases hb : st.blocks[bi]? with
      | none =>
        unfold SVGChessBoard.modifyBlock
        simp [hb]
      | some b => rw [modifyBlock_blocks_self f hb]; simp [hb, hf]
    · rw [modifyBlock_blocks_ne f hj]
  · intro j; rw [modifyBlock_pieces]

theorem statics_syncStep (eng : EngineState) (s : SVGChessBoard) (bi : Nat) :
    Statics s (SVGChessBoard.syncStep eng s bi) := by
  unfold SVGChessBoard.syncStep
  split
  · exact statics_self s
  · split
    · rename_i pi heq2
      exact statics_trans
        (statics_modifyPiece s pi
          (fun p => { p with block := some bi, offset := (0, 0) }) (fun p => rfl))
        (statics_modifyBlock _ bi (fun bb => { bb with piece := some pi }) (fun bb => rfl))
    · exact statics_modifyBlock s bi (fun bb => { bb with piece := none }) (fun bb => rfl)

theorem statics_syncFold (eng : EngineState) (L : List Nat) (s : SVGChessBoard) :
    Statics s (L.foldl (SVGChessBoard.syncStep eng) s) := by
  induction L generalizing s with
  | nil => exact statics_self s
  | cons a L ih => exact statics_trans (statics_syncStep eng s a) (ih _)

theorem find_eq_of_eq_on {α : Type} {L : List α} {f g : α → Bool}
    (h : ∀ x ∈ L, f x = g x) : L.find? f = L.find? g := by
  induction L with
  | nil => rfl
  | cons a L ih =>
    have ha := h a (by simp)
    cases hg : g a with
    | true =>
      rw [List.find?_cons_of_pos _ (by rw [ha, hg]), List.find?_cons_of_pos _ hg]
    | false =>
      rw [List.find?_cons_of_neg _ (by rw [ha, hg]; simp),
        List.find?_cons_of_neg _ (by rw [hg]; simp)]
      exact ih (fun x hx => h x (by simp [hx]))

theorem pieceMatch_statics (eng : EngineState) {s t : SVGChessBoard}
    (hst : Statics s t) (b : Block) :
    SVGChessBoard.pieceMatch eng s.pieces b = SVGChessBoard.pieceMatch eng t.pieces b := by
  unfold SVGChessBoard.pieceMatch
  rw [hst.plen]
  apply find_eq_of_eq_on
  intro pi _
  have hmap := hst.pmap pi
  cases hs : s.pieces[pi]? with
  | none =>
    cases ht : t.pieces[pi]? with
    | none => rfl
    | some q => rw [hs, ht] at hmap; simp at hmap
  | some p =>
    cases ht : t.pieces[pi]? with
    | none => rw [hs, ht] at hmap; simp at hmap
    | some q =>
      rw [hs, ht] at hmap
      simp only [Option.map_some', Option.some.injEq] at hmap
      simp [hmap]

/-- The piece the reconciler pairs to block position `bi` of state `s`: the value
the `forEach` body computes for that block component. -/
def matchAt (eng : EngineState) (s : SVGChessBoard) (bi : Nat) : Option Nat :=
  match s.blocks[bi]? with
  | some b => SVGChessBoard.pieceMatch eng s.pieces b.block
  | none => none

theorem matchAt_statics (eng : EngineState) {s t : SVGChessBoard}
    (hst : Statics s t) (bi : Nat) : matchAt eng s bi = matchAt eng t bi := by
  unfold matchAt
  have hmap := hst.bmap bi
  cases hs : s.blocks[bi]? with
  | none =>
    cases ht : t.blocks[bi]? with
    | none => rfl
    | some c => rw [hs, ht] at hmap; simp at hmap
  | some b =>
    cases ht : t.blocks[bi]? with
    | none => rw [hs, ht] at hmap; simp at hmap
    | some c =>
      rw [hs, ht] at hmap
      simp only [Option.map_some', Option.some.injEq] at hmap
      show SVGChessBoard.pieceMatch eng s.pieces b.block =
        SVGChessBoard.pieceMatch eng t.pieces c.block
      rw [pieceMatch_statics eng hst b.block, hmap]

theorem syncStep_dragPiece (eng : EngineState) (s : SVGChessBoard) (bi : Nat) :
    (SVGChessBoard.syncStep eng s bi).dragPiece = s.dragPiece := by
  unfold SVGChessBoard.syncStep
  split
  · rfl
  · split
    · rw [modifyBlock_dragPiece, modifyPiece_dragPiece]
    · rw [modifyBlock_dragPiece]

theorem syncFold_dragPiece (eng : EngineState) (L : List Nat) (s : SVGChessBoard) :
    (L.foldl (SVGChessBoard.syncStep eng) s).dragPiece = s.dragPiece := by
  induction L generalizing s with
  | nil => rfl
  | cons a L ih => rw [List.foldl_cons, ih, syncStep_dragPiece]

theorem syncStep_blocks_ne (eng : EngineState) (s : SVGChessBoard) {bi bj : Nat}
    (hne : bi ≠ bj) :
    (SVGChessBoard.syncStep eng s bi).blocks[bj]? = s.blocks[bj]? := by
  unfold SVGChessBoard.syncStep
  split
  · rfl
  · split
    · rw [modifyBlock_blocks_ne _ hne, modifyPiece_blocks]
    · rw [modifyBlock_blocks_ne _ hne]

theorem syncStep_pieces_unmatched (eng : EngineState) (s : SVGChessBoard) {bi pi : Nat}
    (h : matchAt eng s bi ≠ some pi) :
    (SVGChessBoard.syncStep eng s bi).pieces[pi]? = s.pieces[pi]? := by
  unfold SVGChessBoard.syncStep
  split
  · rfl
  · rename_i b hb
    split
    · rename_i pj hm
      have hne : pj ≠ pi := by
        intro hcontra
        subst hcontra
        apply h
        unfold matchAt
        rw [hb]
        exact hm
      rw [modifyBlock_pieces, modifyPiece_pieces_ne _ hne]
    · rw [modifyBlock_pieces]

theorem syncStep_blocks_self (eng : EngineState) (s : SVGChessBoard) {bi : Nat}
    {b : SVGChessBlock} (hb : s.blocks[bi]? = some b) :
    (SVGChessBoard.syncStep eng s bi).blocks[bi]? =
      some { b with piece := matchAt eng s bi } := by
  have hmr : matchAt eng s bi = SVGChessBoard.pieceMatch eng s.pieces b.block := by
    unfold matchAt
    rw [hb]
  unfold SVGChessBoard.syncStep
  simp only [hb]
  rw [hmr]
  cases hm : SVGChessBoard.pieceMatch eng s.pieces b.block with
  | some pj =>
    show ((s.modifyPiece pj
        (fun p => { p with block := some bi, offset := (0, 0) })).modifyBlock bi
        (fun bb => { bb with piece := some pj })).blocks[bi]? =
      some { b with piece := some pj }
    have hb1 : (s.modifyPiece pj
        (fun p => { p with block := some bi, offset := (0, 0) })).blocks[bi]? = some b := by
      rw [modifyPiece_blocks]
      exact hb
    rw [modifyBlock_blocks_self _ hb1]
  | none =>
    show (s.modifyBlock bi (fun bb => { bb with piece := none })).blocks[bi]? =
      some { b with piece := none }
    rw [modifyBlock_blocks_self _ hb]

theorem syncStep_pieces_matched (eng : EngineState) (s : SVGChessBoard) {bi pi : Nat}
    {p : SVGChessPiece} (hm : matchAt eng s bi = some pi) (hp : s.pieces[pi]? = some p) :
    (SVGChessBoard.syncStep eng s bi).pieces[pi]? =
      some { p with block := some bi, offset := (0, 0) } := by
  unfold matchAt at hm
  cases hb : s.blocks[bi]? with
  | none => rw [hb] at hm; cases hm
  | some b =>
    rw [hb] at hm
    replace hm : SVGChessBoard.pieceMatch eng s.pieces b.block = some pi := hm
    unfold SVGChessBoard.syncStep
    simp only [hb, hm]
    show ((s.modifyPiece pi
        (fun q => { q with block := some bi, offset := (0, 0) })).modifyBlock bi
        (fun bb => { bb with piece := some pi })).pieces[pi]? =
      some { p with block := some bi, offset := (0, 0) }
    rw [modifyBlock_pieces]
    exact modifyPiece_pieces_self _ hp

theorem syncFold_blocks_not_mem (eng : EngineState) (L : List Nat) (s : SVGChessBoard)
    (bj : Nat) (h : bj ∉ L) :
    (L.foldl (SVGChessBoard.syncStep eng) s).blocks[bj]? = s.blocks[bj]? := by
  induction L generalizing s with
  | nil => rfl
  | cons a L ih =>
    have ha : a ≠ bj := fun hcontra => h (by simp [hcontra])
    rw [List.foldl_cons, ih _ (fun hm => h (List.mem_cons_of_mem a hm)),
      syncStep_blocks_ne eng s ha]

theorem syncFold_pieces_unmatched (eng : EngineState) (L : List Nat) (s : SVGChessBoard)
    (pi : Nat) (h : ∀ bj ∈ L, matchAt eng s bj ≠ some pi) :
    (L.foldl (SVGChessBoard.syncStep eng) s).pieces[pi]? = s.pieces[pi]? := by
  induction L generalizing s with
  | nil => rfl
  | cons a L ih =>
    rw [List.foldl_cons]
    have hrec : ∀ bj ∈ L, matchAt eng (SVGChessBoard.syncStep eng s a) bj ≠ some pi := by
      intro bj hbj
      rw [← matchAt_statics eng (statics_syncStep eng s a) bj]
      exact h bj (List.mem_cons_of_mem a hbj)
    rw [ih _ hrec, syncStep_pieces_unmatched eng s (h a (by simp))]

theorem syncFold_blocks_final (eng : EngineState) (L : List Nat) (s : SVGChessBoard)
    (bj : Nat) (b : SVGChessBlock) (hnd : L.Nodup) (hmem : bj ∈ L)
    (hb : s.blocks[bj]? = some b) :
    (L.foldl (SVGChessBoard.syncStep eng) s).blocks[bj]? =
      some { b with piece := matchAt eng s bj } := by
  obtain ⟨L1, L2, rfl⟩ := List.append_of_mem hmem
  have hnd2 := hnd
  rw [List.nodup_append] at hnd2
  have hbj1 : bj ∉ L1 := fun hmem1 => hnd2.2.2 hmem1 (by simp)
  have hbj2 : bj ∉ L2 := by
    have := hnd2.2.1
    rw [List.nodup_cons] at this
    exact this.1
  rw [List.foldl_append, List.foldl_cons]
  have hs1b : (L1.foldl (SVGChessBoard.syncStep eng) s).blocks[bj]? = some b := by
    rw [syncFold_blocks_not_mem eng L1 s bj hbj1]
    exact hb
  rw [syncFold_blocks_not_mem eng L2 _ bj hbj2, syncStep_blocks_self eng _ hs1b,
    ← matchAt_statics eng (statics_syncFold eng L1 s) bj]

theorem syncFold_pieces_final (eng : EngineState) (L : List Nat) (s : SVGChessBoard)
    (pi bi0 : Nat) (p : SVGChessPiece) (hnd : L.Nodup) (hmem : bi0 ∈ L)
    (hm : matchAt eng s bi0 = some pi)
    (huniq : ∀ bj ∈ L, matchAt eng s bj = some pi → bj = bi0)
    (hp : s.pieces[pi]? = some p) :
    (L.foldl (SVGChessBoard.syncStep eng) s).pieces[pi]? =
      some { p with block := some bi0, offset := (0, 0) } := by
  obtain ⟨L1, L2, rfl⟩ := List.append_of_mem hmem
  have hnd2 := hnd
  rw [List.nodup_append] at hnd2
  have hbi1 : bi0 ∉ L1 := fun hmem1 => hnd2.2.2 hmem1 (by simp)
  have hbi2 : bi0 ∉ L2 := by
    have := hnd2.2.1
    rw [List.nodup_cons] at this
    exact this.1
  rw [List.foldl_append, List.foldl_cons]
  have hst1 : Statics s (L1.foldl (SVGChessBoard.syncStep eng) s) := statics_syncFold eng L1 s
  have hpre : ∀ bj ∈ L1, matchAt eng s bj ≠ some pi := by
    intro bj hbj hcontra
    exact hbi1 (huniq bj (by simp [hbj]) hcontra ▸ hbj)
  have hs1p : (L1.foldl (SVGChessBoard.syncStep eng) s).pieces[pi]? = some p := by
    rw [syncFold_pieces_unmatched eng L1 s pi hpre]
    exact hp
  have hm1 : matchAt eng (L1.foldl (SVGChessBoard.syncStep eng) s) bi0 = some pi := by
    rw [← matchAt_statics eng hst1 bi0]
    exact hm
  have hstep := syncStep_pieces_matched eng _ hm1 hs1p
  have hst2 : Statics s (SVGChessBoard.syncStep eng (L1.foldl (SVGChessBoard.syncStep eng) s) bi0) :=
    statics_trans hst1 (statics_syncStep eng _ bi0)
  have hpost : ∀ bj ∈ L2,
      matchAt eng (SVGChessBoard.syncStep eng (L1.foldl (SVGChessBoard.syncStep eng) s) bi0) bj
        ≠ some pi := by
    intro bj hbj hcontra
    rw [← matchAt_statics eng hst2 bj] at hcontra
    exact hbi2 (huniq bj (by simp [hbj]) hcontra ▸ hbj)
  rw [syncFold_pieces_unmatched eng L2 _ pi hpost, hstep]

theorem matchAt_eq_some_iff (eng : EngineState) (s : SVGChessBoard) (bi pi : Nat)
    (hpinj : ∀ (pj pk : Nat) (q r : SVGChessPiece), s.pieces[pj]? = some q →
      s.pieces[pk]? = some r → eng.pieceBlock q.piece = eng.pieceBlock r.piece → pj = pk) :
    matchAt eng s bi = some pi ↔
      ∃ (b : SVGChessBlock) (p : SVGChessPiece), s.blocks[bi]? = some b ∧
        s.pieces[pi]? = some p ∧ eng.pieceBlock p.piece = b.block := by
  constructor
  · intro h
    unfold matchAt at h
    cases hb : s.blocks[bi]? with
    | none => rw [hb] at h; cases h
    | some b =>
      rw [hb] at h
      replace h : SVGChessBoard.pieceMatch eng s.pieces b.block = some pi := h
      unfold SVGChessBoard.pieceMatch at h
      have hpred := List.find?_some h
      cases hp : s.pieces[pi]? with
      | none => rw [hp] at hpred; simp at hpred
      | some p =>
        rw [hp] at hpred
        simp only [beq_iff_eq] at hpred
        exact ⟨b, p, rfl, rfl, hpred⟩
  · rintro ⟨b, p, hb, hp, hpb⟩
    unfold matchAt
    rw [hb]
    show SVGChessBoard.pieceMatch eng s.pieces b.block = some pi
    unfold SVGChessBoard.pieceMatch
    have hlt : pi < s.pieces.length := (List.getElem?_eq_some_iff.mp hp).1
    have hsome : ((List.range s.pieces.length).find? (fun pj =>
        match s.pieces[pj]? with
        | some q => eng.pieceBlock q.piece == b.block
        | none => false)).isSome := by
      rw [List.find?_isSome]
      exact ⟨pi, List.mem_range.mpr hlt, by simp [hp, hpb]⟩
    obtain ⟨pj, hpj⟩ := Option.isSome_iff_exists.mp hsome
    have hpred := List.find?_some hpj
    cases hq : s.pieces[pj]? with
    | none => rw [hq] at hpred; simp at hpred
    | some q =>
      rw [hq] at hpred
      simp only [beq_iff_eq] at hpred
      rw [hpinj pj pi q p hq hp (by rw [hpred, hpb])] at hpj
      exact hpj

theorem matchAt_eq_none (eng : EngineState) (s : SVGChessBoard) (bi : Nat)
    (b : SVGChessBlock) (hb : s.blocks[bi]? = some b)
    (hempty : ∀ (pj : Nat) (q : SVGChessPiece), s.pieces[pj]? = some q →
      eng.pieceBlock q.piece ≠ b.block) :
    matchAt eng s bi = none := by
  unfold matchAt
  rw [hb]
  show SVGChessBoard.pieceMatch eng s.pieces b.block = none
  unfold SVGChessBoard.pieceMatch
  rw [List.find?_eq_none]
  intro x _
  cases hq : s.pieces[x]? with
  | none => simp
  | some q => simp [hempty x q hq]

theorem applyMove_pieceBlock_self (eng : EngineState) (pid : Nat) (dest : Block) :
    (eng.applyMove pid dest).pieceBlock pid = dest := by
  unfold EngineState.applyMove
  cases eng.castlingSecondary pid dest <;> simp

theorem move_applied (eng2 : EngineState) (st : SVGChessBoard) (pid dpi : Nat)
    (p : SVGChessPiece) (hph : st.pieces[dpi]? = some p) (hpid : p.piece = pid)
    (huniq : ∀ (pj : Nat) (q : SVGChessPiece), st.pieces[pj]? = some q →
      q.piece = pid → pj = dpi)
    (hlt : (eng2.pieceBlock pid).index < st.blocks.length) :
    SVGChessBoard.move eng2 st pid =
      ((st.modifyPiece dpi (fun q =>
          { q with block := some (eng2.pieceBlock pid).index, offset := (0, 0) })).modifyBlock
        (eng2.pieceBlock pid).index (fun b => { b with piece := some dpi }), false) := by
  have hfind : (List.range st.pieces.length).find? (fun pj =>
      match st.pieces[pj]? with
      | some q => q.piece == pid
      | none => false) = some dpi := by
    have hsome : ((List.range st.pieces.length).find? (fun pj =>
        match st.pieces[pj]? with
        | some q => q.piece == pid
        | none => false)).isSome := by
      rw [List.find?_isSome]
      exact ⟨dpi, List.mem_range.mpr (List.getElem?_eq_some_iff.mp hph).1, by simp [hph, hpid]⟩
    obtain ⟨pj, hpj⟩ := Option.isSome_iff_exists.mp hsome
    have hpred := List.find?_some hpj
    cases hq : st.pieces[pj]? with
    | none => rw [hq] at hpred; simp at hpred
    | some q =>
      rw [hq] at hpred
      simp only [beq_iff_eq] at hpred
      rw [huniq pj q hq hpred] at hpj
      exact hpj
  unfold SVGChessBoard.move
  rw [hfind]
  simp [hlt]

theorem dropPiece_valid_eq (dom : Dom) (eng : EngineState) (st : SVGChessBoard)
    (ev : DropEvent) (dpi : Nat) (dragH : SVGChessPiece) (dropBlock : SVGChessBlock)
    (hdp : st.dragPiece = some dpi)
    (hph : st.pieces[dpi]? = some dragH)
    (hin : blockAt st.blocks (SVGChessBoard.dropIndex dom ev) = some dropBlock)
    (hlegal : dropBlock.block ∈ eng.moves dragH.piece) :
    SVGChessBoard.dropPiece dom eng st ev =
      (eng.applyMove dragH.piece dropBlock.block,
       SVGChessBoard.endDragAndDrop
         (if eng.isCastling dragH.piece dropBlock.block then
            SVGChessBoard.syncPiecesToBlocks (eng.applyMove dragH.piece dropBlock.block)
              (SVGChessBoard.move (eng.applyMove dragH.piece dropBlock.block) st dragH.piece).1
          else (SVGChessBoard.move (eng.applyMove dragH.piece dropBlock.block) st dragH.piece).1),
       [(dragH.piece, dropBlock.block)]) := by
  unfold SVGChessBoard.dropPiece ChessBoardController.move
  rw [hin, hdp]
  simp only [hph]
  rw [if_pos hlegal]
  simp only [MoveResult.isCastlingMove]
  cases hc : eng.isCastling dragH.piece dropBlock.block <;> simp

theorem pinj_transfer (eng2 : EngineState) (st s : SVGChessBoard) (hst : Statics st s)
    (hpinj : ∀ pi < st.pieces.length, ∀ pj < st.pieces.length,
      (st.pieces[pi]?).map (fun (q : SVGChessPiece) => eng2.pieceBlock q.piece) =
        (st.pieces[pj]?).map (fun (q : SVGChessPiece) => eng2.pieceBlock q.piece) → pi = pj) :
    ∀ (pj pk : Nat) (q r : SVGChessPiece), s.pieces[pj]? = some q →
      s.pieces[pk]? = some r → eng2.pieceBlock q.piece = eng2.pieceBlock r.piece → pj = pk := by
  intro pj pk q r hq hr he
  have hpjlt : pj < s.pieces.length := (List.getElem?_eq_some_iff.mp hq).1
  have hpklt : pk < s.pieces.length := (List.getElem?_eq_some_iff.mp hr).1
  have hlen := hst.plen
  have h1 := hst.pmap pj
  have h2 := hst.pmap pk
  rw [hq] at h1
  rw [hr] at h2
  apply hpinj pj (by omega) pk (by omega)
  cases hq' : st.pieces[pj]? with
  | none => rw [hq'] at h1; simp at h1
  | some q' =>
    cases hr' : st.pieces[pk]? with
    | none => rw [hr'] at h2; simp at h2
    | some r' =>
      rw [hq'] at h1
      rw [hr'] at h2
      simp only [Option.map_some', Option.some.injEq] at h1 h2
      simp only [Option.map_some', Option.some.injEq]
      rw [h1, h2, he]

/-- Claim C1: for a piece and destination square with the destination in the
engine's legal-move set, dropping the piece there and running the move
authority's result leaves the dragged piece's visual square pairing equal to the
destination square's handle (the block component at the destination's index),
with the lifted state cleared — in both the plain and the castling branch.  The
hypotheses are the rendered-board invariants: the destination block component
sits at its block's index, piece components hold distinct logical pieces, block
components hold distinct logical blocks.  Only when the move is castling — where
the full reconciler sweep runs, and which never captures — is it further assumed
that after the engine applies the move no two piece components occupy the same
logical block; a plain move or capture drop needs no such assumption. -/
theorem valid_drop_pairs_piece_with_destination
    (dom : Dom) (eng : EngineState) (st : SVGChessBoard) (ev : DropEvent)
    (dpi : Nat) (dragH : SVGChessPiece) (dropBlock : SVGChessBlock)
    (hdp : st.dragPiece = some dpi)
    (hph : st.pieces[dpi]? = some dragH)
    (hin : blockAt st.blocks (SVGChessBoard.dropIndex dom ev) = some dropBlock)
    (hlegal : dropBlock.block ∈ eng.moves dragH.piece)
    (hidx : st.blocks[dropBlock.block.index]? = some dropBlock)
    (hpidu : ∀ pj < st.pieces.length,
      (st.pieces[pj]?).map (fun (q : SVGChessPiece) => q.piece) = some dragH.piece → pj = dpi)
    (hbinj : ∀ bi < st.blocks.length, ∀ bj < st.blocks.length,
      (st.blocks[bi]?).map (fun (b : SVGChessBlock) => b.block) =
        (st.blocks[bj]?).map (fun (b : SVGChessBlock) => b.block) → bi = bj)
    (hpinj : eng.isCastling dragH.piece dropBlock.block = true →
      ∀ pi < st.pieces.length, ∀ pj < st.pieces.length,
      (st.pieces[pi]?).map (fun (q : SVGChessPiece) =>
          (eng.applyMove dragH.piece dropBlock.block).pieceBlock q.piece) =
        (st.pieces[pj]?).map (fun (q : SVGChessPiece) =>
          (eng.applyMove dragH.piece dropBlock.block).pieceBlock q.piece) → pi = pj) :
    (SVGChessBoard.dropPiece dom eng st ev).2.1.pieces[dpi]? =
      some { dragH with
             block := some dropBlock.block.index,
             lifted := false,
             offset := (0, 0) } := by
  have heng2 : (eng.applyMove dragH.piece dropBlock.block).pieceBlock dragH.piece =
      dropBlock.block := applyMove_pieceBlock_self eng dragH.piece dropBlock.block
  have hjlt : dropBlock.block.index < st.blocks.length :=
    (List.getElem?_eq_some_iff.mp hidx).1
  have huniqE : ∀ (pj : Nat) (q : SVGChessPiece), st.pieces[pj]? = some q →
      q.piece = dragH.piece → pj = dpi := by
    intro pj q hq hqe
    exact hpidu pj (List.getElem?_eq_some_iff.mp hq).1 (by rw [hq]; simp [hqe])
  have hltidx : ((eng.applyMove dragH.piece dropBlock.block).pieceBlock dragH.piece).index <
      st.blocks.length := by rw [heng2]; exact hjlt
  have hmv := move_applied (eng.applyMove dragH.piece dropBlock.block) st dragH.piece dpi dragH
    hph rfl huniqE hltidx
  rw [heng2] at hmv
  have hstatU : Statics st ((st.modifyPiece dpi (fun q =>
      { q with block := some dropBlock.block.index, offset := (0, 0) })).modifyBlock
        dropBlock.block.index (fun b => { b with piece := some dpi })) :=
    statics_trans
      (statics_modifyPiece st dpi
        (fun q => { q with block := some dropBlock.block.index, offset := (0, 0) })
        (fun _ => rfl))
      (statics_modifyBlock _ dropBlock.block.index
        (fun b => { b with piece := some dpi }) (fun _ => rfl))
  have hUdrag : ((st.modifyPiece dpi (fun q =>
      { q with block := some dropBlock.block.index, offset := (0, 0) })).modifyBlock
        dropBlock.block.index (fun b => { b with piece := some dpi })).dragPiece = some dpi := by
    rw [modifyBlock_dragPiece, modifyPiece_dragPiece, hdp]
  have hUpieces : ((st.modifyPiece dpi (fun q =>
      { q with block := some dropBlock.block.index, offset := (0, 0) })).modifyBlock
        dropBlock.block.index (fun b => { b with piece := some dpi })).pieces[dpi]? =
      some { dragH with block := some dropBlock.block.index, offset := (0, 0) } := by
    rw [modifyBlock_pieces]
    exact modifyPiece_pieces_self _ hph
  have hUblocks : ((st.modifyPiece dpi (fun q =>
      { q with block := some dropBlock.block.index, offset := (0, 0) })).modifyBlock
        dropBlock.block.index (fun b => { b with piece := some dpi })).blocks[dropBlock.block.index]? =
      some { dropBlock with piece := some dpi } := by
    apply modifyBlock_blocks_self
    rw [modifyPiece_blocks]
    exact hidx
  cases hcast : eng.isCastling dragH.piece dropBlock.block with
  | false =>
    have hgoal : (SVGChessBoard.dropPiece dom eng st ev).2.1 =
        SVGChessBoard.endDragAndDrop ((st.modifyPiece dpi (fun q =>
          { q with block := some dropBlock.block.index, offset := (0, 0) })).modifyBlock
            dropBlock.block.index (fun b => { b with piece := some dpi })) := by
      rw [dropPiece_valid_eq dom eng st ev dpi dragH dropBlock hdp hph hin hlegal, hmv]
      simp [hcast]
    rw [hgoal, endDragAndDrop_pieces_self hUdrag hUpieces]
    rfl
  | true =>
    have hgoal : (SVGChessBoard.dropPiece dom eng st ev).2.1 =
        SVGChessBoard.endDragAndDrop (SVGChessBoard.syncPiecesToBlocks
          (eng.applyMove dragH.piece dropBlock.block)
          ((st.modifyPiece dpi (fun q =>
            { q with block := some dropBlock.block.index, offset := (0, 0) })).modifyBlock
              dropBlock.block.index (fun b => { b with piece := some dpi }))) := by
      rw [dropPiece_valid_eq dom eng st ev dpi dragH dropBlock hdp hph hin hlegal, hmv]
      simp [hcast]
    rw [hgoal]
    have hpinjU := pinj_transfer (eng.applyMove dragH.piece dropBlock.block) st _ hstatU
      (hpinj hcast)
    have hm : matchAt (eng.applyMove dragH.piece dropBlock.block)
        ((st.modifyPiece dpi (fun q =>
          { q with block := some dropBlock.block.index, offset := (0, 0) })).modifyBlock
            dropBlock.block.index (fun b => { b with piece := some dpi }))
        dropBlock.block.index = some dpi := by
      rw [matchAt_eq_some_iff _ _ _ dpi hpinjU]
      exact ⟨{ dropBlock with piece := some dpi },
        { dragH with block := some dropBlock.block.index, offset := (0, 0) },
        hUblocks, hUpieces, heng2⟩
    have huniqB : ∀ bj ∈ List.range ((st.modifyPiece dpi (fun q =>
        { q with block := some dropBlock.block.index, offset := (0, 0) })).modifyBlock
          dropBlock.block.index (fun b => { b with piece := some dpi })).blocks.length,
        matchAt (eng.applyMove dragH.piece dropBlock.block)
          ((st.modifyPiece dpi (fun q =>
            { q with block := some dropBlock.block.index, offset := (0, 0) })).modifyBlock
              dropBlock.block.index (fun b => { b with piece := some dpi })) bj = some dpi →
        bj = dropBlock.block.index := by
      intro bj _ hmm
      rw [matchAt_eq_some_iff _ _ bj dpi hpinjU] at hmm
      obtain ⟨b', p', hb', hp', hpb'⟩ := hmm
      rw [hUpieces] at hp'
      injection hp' with hp'
      subst hp'
      have hmapb := hstatU.bmap bj
      rw [hb'] at hmapb
      have hbjlt : bj < st.blocks.length := by
        have hlt := (List.getElem?_eq_some_iff.mp hb').1
        have hblen := hstatU.blen
        rw [modifyBlock_blocks_length, modifyPiece_blocks] at hlt
        exact hlt
      apply hbinj bj hbjlt dropBlock.block.index hjlt
      rw [hmapb, hidx]
      simp only [Option.map_some', Option.some.injEq]
      rw [← hpb']
      exact heng2
    have hmemj : dropBlock.block.index ∈ List.range ((st.modifyPiece dpi (fun q =>
        { q with block := some dropBlock.block.index, offset := (0, 0) })).modifyBlock
          dropBlock.block.index (fun b => { b with piece := some dpi })).blocks.length := by
      rw [List.mem_range, modifyBlock_blocks_length, modifyPiece_blocks]
      exact hjlt
    have hsync := syncFold_pieces_final (eng.applyMove dragH.piece dropBlock.block)
      (List.range ((st.modifyPiece dpi (fun q =>
        { q with block := some dropBlock.block.index, offset := (0, 0) })).modifyBlock
          dropBlock.block.index (fun b => { b with piece := some dpi })).blocks.length)
      _ dpi dropBlock.block.index
      { dragH with block := some dropBlock.block.index, offset := (0, 0) }
      (List.nodup_range _) hmemj hm huniqB hUpieces
    have hsdrag : (SVGChessBoard.syncPiecesToBlocks
        (eng.applyMove dragH.piece dropBlock.block)
        ((st.modifyPiece dpi (fun q =>
          { q with block := some dropBlock.block.index, offset := (0, 0) })).modifyBlock
            dropBlock.block.index (fun b => { b with piece := some dpi }))).dragPiece =
        some dpi := by
      unfold SVGChessBoard.syncPiecesToBlocks
      rw [syncFold_dragPiece]
      exact hUdrag
    have hsp : (SVGChessBoard.syncPiecesToBlocks
        (eng.applyMove dragH.piece dropBlock.block)
        ((st.modifyPiece dpi (fun q =>
          { q with block := some dropBlock.block.index, offset := (0, 0) })).modifyBlock
            dropBlock.block.index (fun b => { b with piece := some dpi }))).pieces[dpi]? =
        some { dragH with block := some dropBlock.block.index, offset := (0, 0) } := by
      unfold SVGChessBoard.syncPiecesToBlocks
      rw [hsync]
    rw [endDragAndDrop_pieces_self hsdrag hsp]
    rfl

/-- An engine like `fixEngine` where white piece 7 may also capture on square 2,
currently occupied by black piece 8 (whose component stays rendered). -/
def c1Engine : EngineState :=
  { fixEngine with
    moves := fun q =>
      if q = 7 then [{ id := 101, index := 1 }, { id := 102, index := 2 }] else [] }

/-- Witness for C1, at a capture drop: piece 7 captures piece 8 on square 2
while the victim's component is still rendered, so no post-move occupied-block
injectivity holds — yet dropping there pairs piece 7's component with the block
component at position 2, drag state cleared. -/
theorem valid_drop_pairs_piece_with_destination_witness :
    blockAt fixBoard.blocks (SVGChessBoard.dropIndex fixDom c2ev) =
      some { block := { id := 102, index := 2 }, piece := some 1 } ∧
    { id := 102, index := 2 } ∈ c1Engine.moves 7 ∧
    (SVGChessBoard.dropPiece fixDom c1Engine fixBoard c2ev).2.1.pieces[0]? =
      some { piece := 7, block := some 2, lifted := false, offset := (0, 0) } := by
  have hidx : SVGChessBoard.dropIndex fixDom c2ev = 2 := by
    norm_num [SVGChessBoard.dropIndex, BaseBlock.pointToIndex, SVGChessBoard.ratioX,
      SVGChessBoard.ratioY, fixDom, c2ev]
  have hin : blockAt fixBoard.blocks (SVGChessBoard.dropIndex fixDom c2ev) =
      some { block := { id := 102, index := 2 }, piece := some 1 } := by
    rw [hidx]; decide
  have main := valid_drop_pairs_piece_with_destination fixDom c1Engine fixBoard c2ev 0
    { piece := 7, block := some 0, lifted := true, offset := (0, 0) }
    { block := { id := 102, index := 2 }, piece := some 1 }
    (by decide) (by decide) hin (by decide) (by decide) (by decide) (by decide) (by decide)
  exact ⟨hin, by decide, main⟩

theorem sync_pairs_piece (eng2 : EngineState) (s : SVGChessBoard) (pi bi : Nat)
    (p : SVGChessPiece) (b : SVGChessBlock)
    (hpinjE : ∀ (pj pk : Nat) (q r : SVGChessPiece), s.pieces[pj]? = some q →
      s.pieces[pk]? = some r → eng2.pieceBlock q.piece = eng2.pieceBlock r.piece → pj = pk)
    (hbinjE : ∀ (bj bk : Nat) (b' b'' : SVGChessBlock), s.blocks[bj]? = some b' →
      s.blocks[bk]? = some b'' → b'.block = b''.block → bj = bk)
    (hp : s.pieces[pi]? = some p)
    (hb : s.blocks[bi]? = some b)
    (hpb : eng2.pieceBlock p.piece = b.block) :
    (SVGChessBoard.syncPiecesToBlocks eng2 s).pieces[pi]? =
      some { p with block := some bi, offset := (0, 0) } := by
  have hm : matchAt eng2 s bi = some pi :=
    (matchAt_eq_some_iff eng2 s bi pi hpinjE).mpr ⟨b, p, hb, hp, hpb⟩
  have hmem : bi ∈ List.range s.blocks.length :=
    List.mem_range.mpr (List.getElem?_eq_some_iff.mp hb).1
  have huniq : ∀ bj ∈ List.range s.blocks.length, matchAt eng2 s bj = some pi → bj = bi := by
    intro bj _ hmm
    rw [matchAt_eq_some_iff eng2 s bj pi hpinjE] at hmm
    obtain ⟨b', p', hb', hp', hpb'⟩ := hmm
    rw [hp] at hp'
    injection hp' with hp'
    subst hp'
    refine hbinjE bj bi b' b hb' hb ?_
    rw [← hpb']
    exact hpb
  unfold SVGChessBoard.syncPiecesToBlocks
  exact syncFold_pieces_final eng2 _ s pi bi p (List.nodup_range _) hmem hm huniq hp

theorem sync_clears_block (eng2 : EngineState) (s : SVGChessBoard) (bi : Nat)
    (b : SVGChessBlock) (hb : s.blocks[bi]? = some b)
    (hempty : ∀ (pj : Nat) (q : SVGChessPiece), s.pieces[pj]? = some q →
      eng2.pieceBlock q.piece ≠ b.block) :
    (SVGChessBoard.syncPiecesToBlocks eng2 s).blocks[bi]? = some { b with piece := none } := by
  have hm := matchAt_eq_none eng2 s bi b hb hempty
  have hmem : bi ∈ List.range s.blocks.length :=
    List.mem_range.mpr (List.getElem?_eq_some_iff.mp hb).1
  unfold SVGChessBoard.syncPiecesToBlocks
  rw [syncFold_blocks_final eng2 _ s bi b (List.nodup_range _) hmem hb, hm]

/-- Claim C5: after a valid castling move the full reconciler sweep runs, and
afterwards every piece component is paired — by identity of the logical block
reference — with the block component whose logical block its logical piece now
occupies, and every block component whose logical block no logical piece
occupies has its piece reference cleared.  Hypotheses are the same rendered-board
invariants as for a plain valid drop. -/
theorem castling_drop_full_resync
    (dom : Dom) (eng : EngineState) (st : SVGChessBoard) (ev : DropEvent)
    (dpi : Nat) (dragH : SVGChessPiece) (dropBlock : SVGChessBlock)
    (hdp : st.dragPiece = some dpi)
    (hph : st.pieces[dpi]? = some dragH)
    (hin : blockAt st.blocks (SVGChessBoard.dropIndex dom ev) = some dropBlock)
    (hlegal : dropBlock.block ∈ eng.moves dragH.piece)
    (hidx : st.blocks[dropBlock.block.index]? = some dropBlock)
    (hcast : eng.isCastling dragH.piece dropBlock.block = true)
    (hpidu : ∀ pj < st.pieces.length,
      (st.pieces[pj]?).map (fun (q : SVGChessPiece) => q.piece) = some dragH.piece → pj = dpi)
    (hbinj : ∀ bi < st.blocks.length, ∀ bj < st.blocks.length,
      (st.blocks[bi]?).map (fun (b : SVGChessBlock) => b.block) =
        (st.blocks[bj]?).map (fun (b : SVGChessBlock) => b.block) → bi = bj)
    (hpinj : ∀ pi < st.pieces.length, ∀ pj < st.pieces.length,
      (st.pieces[pi]?).map (fun (q : SVGChessPiece) =>
          (eng.applyMove dragH.piece dropBlock.block).pieceBlock q.piece) =
        (st.pieces[pj]?).map (fun (q : SVGChessPiece) =>
          (eng.applyMove dragH.piece dropBlock.block).pieceBlock q.piece) → pi = pj) :
    (∀ (pi : Nat) (p : SVGChessPiece), st.pieces[pi]? = some p →
      ∀ (bi : Nat) (b : SVGChessBlock), st.blocks[bi]? = some b →
      b.block = (eng.applyMove dragH.piece dropBlock.block).pieceBlock p.piece →
      ∃ p2 : SVGChessPiece,
        (SVGChessBoard.dropPiece dom eng st ev).2.1.pieces[pi]? = some p2 ∧
        p2.block = some bi ∧ p2.piece = p.piece) ∧
    (∀ (bi : Nat) (b : SVGChessBlock), st.blocks[bi]? = some b →
      (∀ (pj : Nat) (q : SVGChessPiece), st.pieces[pj]? = some q →
        (eng.applyMove dragH.piece dropBlock.block).pieceBlock q.piece ≠ b.block) →
      (SVGChessBoard.dropPiece dom eng st ev).2.1.blocks[bi]? =
        some { b with piece := none }) := by
  have heng2 : (eng.applyMove dragH.piece dropBlock.block).pieceBlock dragH.piece =
      dropBlock.block := applyMove_pieceBlock_self eng dragH.piece dropBlock.block
  have hjlt : dropBlock.block.index < st.blocks.length :=
    (List.getElem?_eq_some_iff.mp hidx).1
  have huniqE : ∀ (pj : Nat) (q : SVGChessPiece), st.pieces[pj]? = some q →
      q.piece = dragH.piece → pj = dpi := by
    intro pj q hq hqe
    exact hpidu pj (List.getElem?_eq_some_iff.mp hq).1 (by rw [hq]; simp [hqe])
  have hltidx : ((eng.applyMove dragH.piece dropBlock.block).pieceBlock dragH.piece).index <
      st.blocks.length := by rw [heng2]; exact hjlt
  have hmv := move_applied (eng.applyMove dragH.piece dropBlock.block) st dragH.piece dpi dragH
    hph rfl huniqE hltidx
  rw [heng2] at hmv
  set stU := (st.modifyPiece dpi (fun q =>
    { q with block := some dropBlock.block.index, offset := (0, 0) })).modifyBlock
      dropBlock.block.index (fun b => { b with piece := some dpi }) with hstUdef
  have hstatU : Statics st stU :=
    statics_trans
      (statics_modifyPiece st dpi
        (fun q => { q with block := some dropBlock.block.index, offset := (0, 0) })
        (fun _ => rfl))
      (statics_modifyBlock _ dropBlock.block.index
        (fun b => { b with piece := some dpi }) (fun _ => rfl))
  have hUdrag : stU.dragPiece = some dpi := by
    rw [hstUdef, modifyBlock_dragPiece, modifyPiece_dragPiece, hdp]
  have hUpieces : stU.pieces[dpi]? =
      some { dragH with block := some dropBlock.block.index, offset := (0, 0) } := by
    rw [hstUdef, modifyBlock_pieces]
    exact modifyPiece_pieces_self _ hph
  have hUblocks : stU.blocks[dropBlock.block.index]? =
      some { dropBlock with piece := some dpi } := by
    rw [hstUdef]
    apply modifyBlock_blocks_self
    rw [modifyPiece_blocks]
    exact hidx
  have hgoal : (SVGChessBoard.dropPiece dom eng st ev).2.1 =
      SVGChessBoard.endDragAndDrop (SVGChessBoard.syncPiecesToBlocks
        (eng.applyMove dragH.piece dropBlock.block) stU) := by
    rw [dropPiece_valid_eq dom eng st ev dpi dragH dropBlock hdp hph hin hlegal, hmv]
    simp [hcast]
  have hpinjU := pinj_transfer (eng.applyMove dragH.piece dropBlock.block) st stU hstatU hpinj
  have hbinjU : ∀ (bj bk : Nat) (b' b'' : SVGChessBlock), stU.blocks[bj]? = some b' →
      stU.blocks[bk]? = some b'' → b'.block = b''.block → bj = bk := by
    intro bj bk b' b'' hb' hb'' he
    have hmb := hstatU.bmap bj
    rw [hb'] at hmb
    have hmb2 := hstatU.bmap bk
    rw [hb''] at hmb2
    have hbjlt : bj < st.blocks.length := by
      have hlt := (List.getElem?_eq_some_iff.mp hb').1
      have hblen := hstatU.blen
      omega
    have hbklt : bk < st.blocks.length := by
      have hlt := (List.getElem?_eq_some_iff.mp hb'').1
      have hblen := hstatU.blen
      omega
    apply hbinj bj hbjlt bk hbklt
    rw [hmb, hmb2]
    simp [he]
  have hsdrag : (SVGChessBoard.syncPiecesToBlocks
      (eng.applyMove dragH.piece dropBlock.block) stU).dragPiece = some dpi := by
    unfold SVGChessBoard.syncPiecesToBlocks
    rw [syncFold_dragPiece]
    exact hUdrag
  constructor
  · intro pi p hpp bi b hbb hocc
    obtain ⟨pU, hpU, hpUpiece⟩ : ∃ pU : SVGChessPiece,
        stU.pieces[pi]? = some pU ∧ pU.piece = p.piece := by
      by_cases hpi : pi = dpi
      · subst hpi
        rw [hph] at hpp
        injection hpp with hpp
        exact ⟨_, hUpieces, by rw [hpp]⟩
      · refine ⟨p, ?_, rfl⟩
        rw [hstUdef, modifyBlock_pieces, modifyPiece_pieces_ne _ (fun hcon => hpi hcon.symm)]
        exact hpp
    obtain ⟨bU, hbU, hbUblock⟩ : ∃ bU : SVGChessBlock,
        stU.blocks[bi]? = some bU ∧ bU.block = b.block := by
      by_cases hbi : bi = dropBlock.block.index
      · subst hbi
        rw [hidx] at hbb
        injection hbb with hbb
        exact ⟨_, hUblocks, by rw [hbb]⟩
      · refine ⟨b, ?_, rfl⟩
        rw [hstUdef, modifyBlock_blocks_ne _ (fun hcon => hbi hcon.symm), modifyPiece_blocks]
        exact hbb
    have hsyncp := sync_pairs_piece (eng.applyMove dragH.piece dropBlock.block) stU pi bi pU bU
      hpinjU hbinjU hpU hbU (by rw [hpUpiece, hbUblock, hocc])
    by_cases hpi : pi = dpi
    · subst hpi
      refine ⟨SVGChessPiece.dragEnd { pU with block := some bi, offset := (0, 0) }, ?_, rfl, ?_⟩
      · rw [hgoal]
        exact endDragAndDrop_pieces_self hsdrag hsyncp
      · exact hpUpiece
    · refine ⟨{ pU with block := some bi, offset := (0, 0) }, ?_, rfl, hpUpiece⟩
      rw [hgoal, endDragAndDrop_pieces_ne hsdrag (fun hcon => hpi hcon.symm)]
      exact hsyncp
  · intro bi b hbb hempty
    have hbne : bi ≠ dropBlock.block.index := by
      intro hcon
      subst hcon
      rw [hidx] at hbb
      injection hbb with hbb
      apply hempty dpi dragH hph
      rw [heng2, ← hbb]
    have hbU : stU.blocks[bi]? = some b := by
      rw [hstUdef, modifyBlock_blocks_ne _ (fun hcon => hbne hcon.symm), modifyPiece_blocks]
      exact hbb
    have hemptyU : ∀ (pj : Nat) (q : SVGChessPiece), stU.pieces[pj]? = some q →
        (eng.applyMove dragH.piece dropBlock.block).pieceBlock q.piece ≠ b.block := by
      intro pj q hq
      have hmp := hstatU.pmap pj
      rw [hq] at hmp
      cases hq' : st.pieces[pj]? with
      | none => rw [hq'] at hmp; simp at hmp
      | some q' =>
        rw [hq'] at hmp
        simp only [Option.map_some', Option.some.injEq] at hmp
        rw [← hmp]
        exact hempty pj q' hq'
    have hsyncb := sync_clears_block (eng.applyMove dragH.piece dropBlock.block) stU bi b
      hbU hemptyU
    rw [hgoal, endDragAndDrop_blocks]
    exact hsyncb

/-- Piece components for the castling witness: handle 0 is the king (piece 20,
mid-drag), handle 1 the rook (piece 21). -/
def c5Pieces : List SVGChessPiece :=
  [ { piece := 20, block := some 0, lifted := true, offset := (0, 0) },
    { piece := 21, block := some 3, lifted := false, offset := (0, 0) } ]

/-- Engine for the castling witness: king 20 on square 0 may move to square 2;
that move is castling and relocates rook 21 from square 3 to square 1. -/
def c5Engine : EngineState :=
  { turnColor := PieceColor.WHITE,
    pieces := [20, 21],
    pieceColor := fun _ => PieceColor.WHITE,
    pieceBlock := fun q => if q = 20 then { id := 100, index := 0 } else { id := 103, index := 3 },
    moves := fun q => if q = 20 then [{ id := 102, index := 2 }] else [],
    isCastling := fun _ _ => true,
    castlingSecondary := fun _ _ => some (21, { id := 101, index := 1 }) }

/-- Board mid-drag of the king for the castling witness. -/
def c5Board : SVGChessBoard :=
  { dragPiece := some 0, isBusy := false, isDisabled := false, banner := none,
    highlighted := [], rxWaste := [], blocks := fixBlocks, pieces := c5Pieces }

/-- Witness for C5: dropping the king on square 2 triggers the castling sweep;
the king's component pairs with block 2, the rook's component pairs with block 1
although the rook was never dragged, and the vacated squares 0 and 3 have their
piece references cleared. -/
theorem castling_drop_full_resync_witness :
    blockAt c5Board.blocks (SVGChessBoard.dropIndex fixDom c2ev) =
      some { block := { id := 102, index := 2 }, piece := some 1 } ∧
    (∃ p2 : SVGChessPiece,
      (SVGChessBoard.dropPiece fixDom c5Engine c5Board c2ev).2.1.pieces[0]? = some p2 ∧
      p2.block = some 2 ∧ p2.piece = 20) ∧
    (∃ p2 : SVGChessPiece,
      (SVGChessBoard.dropPiece fixDom c5Engine c5Board c2ev).2.1.pieces[1]? = some p2 ∧
      p2.block = some 1 ∧ p2.piece = 21) ∧
    (SVGChessBoard.dropPiece fixDom c5Engine c5Board c2ev).2.1.blocks[0]? =
      some { block := { id := 100, index := 0 }, piece := none } ∧
    (SVGChessBoard.dropPiece fixDom c5Engine c5Board c2ev).2.1.blocks[3]? =
      some { block := { id := 103, index := 3 }, piece := none } := by
  have hidx2 : SVGChessBoard.dropIndex fixDom c2ev = 2 := by
    norm_num [SVGChessBoard.dropIndex, BaseBlock.pointToIndex, SVGChessBoard.ratioX,
      SVGChessBoard.ratioY, fixDom, c2ev]
  have hin : blockAt c5Board.blocks (SVGChessBoard.dropIndex fixDom c2ev) =
      some { block := { id := 102, index := 2 }, piece := some 1 } := by
    rw [hidx2]; decide
  have main := castling_drop_full_resync fixDom c5Engine c5Board c2ev 0
    { piece := 20, block := some 0, lifted := true, offset := (0, 0) }
    { block := { id := 102, index := 2 }, piece := some 1 }
    (by decide) (by decide) hin (by decide) (by decide) (by decide)
    (by decide) (by decide) (by decide)
  refine ⟨hin, ?_, ?_, ?_, ?_⟩
  · exact main.1 0 { piece := 20, block := some 0, lifted := true, offset := (0, 0) }
      (by decide) 2 { block := { id := 102, index := 2 }, piece := some 1 }
      (by decide) (by decide)
  · exact main.1 1 { piece := 21, block := some 3, lifted := false, offset := (0, 0) }
      (by decide) 1 { block := { id := 101, index := 1 }, piece := none }
      (by decide) (by decide)
  · refine main.2 0 { block := { id := 100, index := 0 }, piece := some 0 } (by decide) ?_
    intro pj q hq
    rcases pj with _ | _ | pj
    · rw [show c5Board.pieces[0]? =
          some { piece := 20, block := some 0, lifted := true, offset := (0, 0) } from rfl] at hq
      injection hq with hq
      subst hq
      decide
    · rw [show c5Board.pieces[1]? =
          some { piece := 21, block := some 3, lifted := false, offset := (0, 0) } from rfl] at hq
      injection hq with hq
      subst hq
      decide
    · rw [List.getElem?_eq_none (by have h2 : c5Board.pieces.length = 2 := rfl; omega)] at hq
      cases hq
  · refine main.2 3 { block := { id := 103, index := 3 }, piece := none } (by decide) ?_
    intro pj q hq
    rcases pj with _ | _ | pj
    · rw [show c5Board.pieces[0]? =
          some { piece := 20, block := some 0, lifted := true, offset := (0, 0) } from rfl] at hq
      injection hq with hq
      subst hq
      decide
    · rw [show c5Board.pieces[1]? =
          some { piece := 21, block := some 3, lifted := false, offset := (0, 0) } from rfl] at hq
      injection hq with hq
      subst hq
      decide
    · rw [List.getElem?_eq_none (by have h2 : c5Board.pieces.length = 2 := rfl; omega)] at hq
      cases hq
